import Mathlib

/-!
Shallow embedding of `src/earnings.rs` from the preearnings-call-scheduler
repository: the trading-calendar arithmetic of the `DatelikeExt` impl for
`Date`, the observation data model, and the reconciliation algorithm
`best_earnings_guess`.

Dates are represented as in chrono: plain integers counting the number of days from the Common Era,
with `NaiveDate::from_num_days_from_ce(1)` being 0001-01-01, which is a Monday
of the proleptic Gregorian calendar.  Calendar arithmetic inside the
reconciliation algorithm is modelled on unbounded integers; the bounded range
of `chrono::NaiveDate` (outside which chrono panics) is modelled separately by
the checked variants below.  The ambient current date read by the source
(`chrono::Local::today().naive_local()`) is passed as the explicit parameter
`today`.  `best_earnings_guess` returns an `Option`; `none` models the
`.unwrap()` panic of the source at `guesses.remove(&best_date).unwrap()` when
the selected date is not a key of the map.  The `HashMap<Date, Vec<_>>` is
modelled as an association list whose keys appear in first-insertion order;
all the properties proved below about the result are insensitive to the order
in which the map iterates its entries.
-/

inductive Weekday
  | mon | tue | wed | thu | fri | sat | sun
  deriving DecidableEq

/-- Day of week of a `Date`, as chrono computes it: day number 1
(0001-01-01 proleptic Gregorian) is a Monday, and the week cycles with
period 7. -/
def weekday (d : Int) : Weekday :=
  match ((d - 1) % 7).toNat with
  | 0 => .mon
  | 1 => .tue
  | 2 => .wed
  | 3 => .thu
  | 4 => .fri
  | 5 => .sat
  | _ => .sun

/-- Rust `closest_trading_day`: Saturday steps back one day, Sunday two,
any other day is returned unchanged. -/
def closest_trading_day (d : Int) : Int :=
  match weekday d with
  | .sat => d - 1
  | .sun => d - 2
  | _ => d

/-- Rust `next_trading_day`: Friday jumps three days to Monday, Saturday two,
any other day moves to its successor (`succ`). -/
def next_trading_day (d : Int) : Int :=
  match weekday d with
  | .fri => d + 3
  | .sat => d + 2
  | _ => d + 1

/-- Rust `prev_trading_day`: Monday jumps back three days to Friday, Sunday
two, any other day moves to its predecessor (`pred`). -/
def prev_trading_day (d : Int) : Int :=
  match weekday d with
  | .mon => d - 3
  | .sun => d - 2
  | _ => d - 1

/-- Smallest day number representable by `chrono::NaiveDate`
(`MIN_YEAR = i32::MIN >> 13 = -262144`; the day is -262144-01-01). -/
def dateMinDays : Int := -95746495

/-- Largest day number representable by `chrono::NaiveDate`
(`MAX_YEAR = i32::MAX >> 13 = 262143`; the day is 262143-12-31). -/
def dateMaxDays : Int := 95745764

/-- Checked variant of `closest_trading_day` over the bounded `NaiveDate`
range: `none` models the chrono panic when the arithmetic leaves the
representable range. -/
def closest_trading_dayChecked (d : Int) : Option Int :=
  if dateMinDays ≤ closest_trading_day d ∧ closest_trading_day d ≤ dateMaxDays then
    some (closest_trading_day d)
  else none

/-- Checked variant of `next_trading_day` over the bounded `NaiveDate` range:
`none` models the chrono panic (`succ` panics on the last representable date,
`+ Duration::days _` panics on overflow). -/
def next_trading_dayChecked (d : Int) : Option Int :=
  if dateMinDays ≤ next_trading_day d ∧ next_trading_day d ≤ dateMaxDays then
    some (next_trading_day d)
  else none

/-- Checked variant of `prev_trading_day` over the bounded `NaiveDate` range:
`none` models the chrono panic (`pred` panics on the first representable date,
`- Duration::days _` panics on underflow). -/
def prev_trading_dayChecked (d : Int) : Option Int :=
  if dateMinDays ≤ prev_trading_day d ∧ prev_trading_day d ≤ dateMaxDays then
    some (prev_trading_day d)
  else none

inductive AnnounceTime
  | BeforeMarket
  | AfterMarket
  | Unknown
  deriving DecidableEq

structure EarningsDateTime where
  date : Int
  time : AnnounceTime
  deriving DecidableEq

/-- Rust `EarningsDateTime::last_session`: the date of the last trading
session before the announcement, together with the "fuzzy" indication. -/
def EarningsDateTime.last_session (e : EarningsDateTime) : Int × Bool :=
  match e.time with
  | .BeforeMarket => (prev_trading_day e.date, false)
  | .AfterMarket => (e.date, false)
  | .Unknown => (e.date, true)

structure SourcedEarningsTime where
  datetime : EarningsDateTime
  source : String
  deriving DecidableEq

structure EarningsGuess where
  last_session : Int
  concurrences : List SourcedEarningsTime
  close_disagreements : List SourcedEarningsTime
  far_disagreements : List SourcedEarningsTime
  deriving DecidableEq

/-- Model of the `HashMap<Date, Vec<(&SourcedEarningsTime, bool)>>` used by
`best_earnings_guess`, as an association list with keys in first-insertion
order. -/
abbrev GuessMap := List (Int × List (SourcedEarningsTime × Bool))

/-- Model of `guesses.entry(k).or_insert_with(Vec::new).push(v)`: append `v`
to the bucket of `k`, creating the bucket if absent. -/
def insertGuess (m : GuessMap) (k : Int) (v : SourcedEarningsTime × Bool) : GuessMap :=
  match m with
  | [] => [(k, [v])]
  | (k1, vs) :: rest =>
    if k1 = k then (k1, vs ++ [v]) :: rest else (k1, vs) :: insertGuess rest k v

/-- Model of `guesses.get(&k)` / the lookup half of `remove`. -/
def findGuess (m : GuessMap) (k : Int) : Option (List (SourcedEarningsTime × Bool)) :=
  match m with
  | [] => none
  | (k1, vs) :: rest => if k1 = k then some vs else findGuess rest k

/-- Bucket of entries registered at a date, empty if the date is not a key. -/
def entriesAt (m : GuessMap) (k : Int) : List (SourcedEarningsTime × Bool) :=
  (findGuess m k).getD []

/-- Model of the removal half of `guesses.remove(&k)`. -/
def eraseGuess (m : GuessMap) (k : Int) : GuessMap :=
  m.filter (fun p => decide (¬ p.1 = k))

/-- One iteration of the grouping loop of `best_earnings_guess`: register the
observation under its session, and, if fuzzy, also under the next and the
previous trading day. -/
def registerObs (m : GuessMap) (o : SourcedEarningsTime) : GuessMap :=
  if o.datetime.last_session.2 then
    insertGuess
      (insertGuess
        (insertGuess m o.datetime.last_session.1 (o, o.datetime.last_session.2))
        (next_trading_day o.datetime.last_session.1) (o, true))
      (prev_trading_day o.datetime.last_session.1) (o, true)
  else
    insertGuess m o.datetime.last_session.1 (o, o.datetime.last_session.2)

/-- The grouping loop of `best_earnings_guess` over the whole input slice. -/
def buildGuesses (dates : List SourcedEarningsTime) : GuessMap :=
  dates.foldl registerObs []

/-- The four mutable selection variables of `best_earnings_guess`. -/
structure SelState where
  highest_fuzzy_count : Nat
  highest_fuzzy_date : Int
  highest_exact_count : Nat
  highest_exact_date : Int
  deriving DecidableEq

/-- Comparison used by the scoring loop of `best_earnings_guess`: a candidate
with count `c1` at date `d1` replaces the current best count `c2` at date `d2`
when its count is strictly higher, or equal with an earlier date. -/
def selBeats (c1 : Nat) (d1 : Int) (c2 : Nat) (d2 : Int) : Prop :=
  c1 > c2 ∨ (c1 = c2 ∧ d1 < d2)

instance (c1 : Nat) (d1 : Int) (c2 : Nat) (d2 : Int) : Decidable (selBeats c1 d1 c2 d2) := by
  unfold selBeats
  infer_instance

/-- One iteration of the scoring loop of `best_earnings_guess`.  Note that on
an exact-count update the source assigns `fuzzy_count` (not `exact_count`)
into `highest_exact_count`; this is reproduced faithfully. -/
def selStep (today : Int) (st : SelState) (e : Int × List (SourcedEarningsTime × Bool)) :
    SelState :=
  if e.1 < today then st
  else
    let fuzzy_count := e.2.length
    let exact_count := (e.2.filter (fun q => q.2)).length
    let st1 :=
      if selBeats fuzzy_count e.1 st.highest_fuzzy_count st.highest_fuzzy_date then
        { st with highest_fuzzy_count := fuzzy_count, highest_fuzzy_date := e.1 }
      else st
    if selBeats exact_count e.1 st1.highest_exact_count st1.highest_exact_date then
      { st1 with highest_exact_count := fuzzy_count, highest_exact_date := e.1 }
    else st1

/-- The scoring loop of `best_earnings_guess` restricted to the two fuzzy
variables, the only ones that flow into the result (used to state the
refinement claim). -/
def selStepFuzzy (today : Int) (st : Nat × Int) (e : Int × List (SourcedEarningsTime × Bool)) :
    Nat × Int :=
  if e.1 < today then st
  else
    if selBeats e.2.length e.1 st.1 st.2 then (e.2.length, e.1) else st

/-- Model of the dedupe-by-source fold used for `close_disagreements` and
`far_disagreements`: push the observation if its source passes `keep` and is
not yet in the accumulator. -/
def dedupeBy (keep : String → Bool) (acc : List SourcedEarningsTime)
    (xs : List (SourcedEarningsTime × Bool)) : List SourcedEarningsTime :=
  xs.foldl (fun acc e =>
    if keep e.1.source && (acc.find? (fun c => c.source == e.1.source)).isNone then
      acc ++ [e.1]
    else acc) acc

/-- Everything `best_earnings_guess` does after the scoring loop: take the
bucket of the selected date as the concurrences (the `.unwrap()` panic of the
source when the date is not a key is modelled by `none`), the deduped buckets
of the two neighboring trading days as the close disagreements, and the
deduped rest as the far disagreements. -/
def bucketize (guesses : GuessMap) (best_date : Int) : Option EarningsGuess :=
  match findGuess guesses best_date with
  | none => none
  | some bucket =>
    let g1 := eraseGuess guesses best_date
    let concurrences := bucket.map (fun e => e.1)
    let prev_date := (findGuess g1 (prev_trading_day best_date)).getD []
    let g2 := eraseGuess g1 (prev_trading_day best_date)
    let next_date := (findGuess g2 (next_trading_day best_date)).getD []
    let g3 := eraseGuess g2 (next_trading_day best_date)
    let close_disagreements :=
      dedupeBy (fun s => (concurrences.find? (fun c => c.source == s)).isNone) []
        (prev_date ++ next_date)
    let far_disagreements :=
      dedupeBy (fun s =>
          (concurrences.find? (fun c => c.source == s)).isNone &&
          (close_disagreements.find? (fun c => c.source == s)).isNone) []
        ((g3.map (fun p => p.2)).flatten)
    some { last_session := best_date
           concurrences := concurrences
           close_disagreements := close_disagreements
           far_disagreements := far_disagreements }

/-- Rust `best_earnings_guess`, with the ambient current date made an explicit
parameter and the `.unwrap()` panic modelled by `none`. -/
def best_earnings_guess (today : Int) (dates : List SourcedEarningsTime) :
    Option EarningsGuess :=
  let guesses := buildGuesses dates
  let st := guesses.foldl (selStep today) ⟨0, 1, 0, 1⟩
  bucketize guesses st.highest_fuzzy_date

/-- Variant of `best_earnings_guess` with the separately-tracked "exact" count
and date removed from the scoring loop; the refinement claim states that it
is extensionally equal to `best_earnings_guess`. -/
def best_earnings_guess_noexact (today : Int) (dates : List SourcedEarningsTime) :
    Option EarningsGuess :=
  let guesses := buildGuesses dates
  let st := guesses.foldl (selStepFuzzy today) (0, 1)
  bucketize guesses st.2

/-- Dates that received at least one registered entry for the given input. -/
def candidateDates (dates : List SourcedEarningsTime) : List Int :=
  (buildGuesses dates).map (fun p => p.1)

/-- Total number of registered entries (fuzzy spillover included) at a date. -/
def votesAt (dates : List SourcedEarningsTime) (d : Int) : Nat :=
  (entriesAt (buildGuesses dates) d).length

/-- The dates under which a single observation is registered by the grouping
loop: its derived session, plus (when fuzzy) the next and previous trading
days of the session. -/
def regKeys (o : SourcedEarningsTime) : List Int :=
  if o.datetime.last_session.2 then
    [o.datetime.last_session.1, next_trading_day o.datetime.last_session.1,
      prev_trading_day o.datetime.last_session.1]
  else [o.datetime.last_session.1]

/-- Entries a single observation contributes to the bucket of a given date,
in registration order. -/
def regEntryAt (o : SourcedEarningsTime) (d : Int) : List (SourcedEarningsTime × Bool) :=
  if o.datetime.last_session.2 then
    (if o.datetime.last_session.1 = d then [(o, o.datetime.last_session.2)] else []) ++
    (if next_trading_day o.datetime.last_session.1 = d then [(o, true)] else []) ++
    (if prev_trading_day o.datetime.last_session.1 = d then [(o, true)] else [])
  else
    (if o.datetime.last_session.1 = d then [(o, o.datetime.last_session.2)] else [])

/-- Weekday test (Monday through Friday), used to state the calendar
round-trip property. -/
def isTradingWeekday (d : Int) : Bool :=
  match weekday d with
  | .sat => false
  | .sun => false
  | _ => true

/-- Observation of spec Scenario A from source "X": `BeforeMarket` on Friday
2024-03-08 (day 738953). -/
def obsX : SourcedEarningsTime := ⟨⟨738953, .BeforeMarket⟩, "X"⟩

/-- Observation of spec Scenario A from source "Y": `AfterMarket` on Thursday
2024-03-07 (day 738952). -/
def obsY : SourcedEarningsTime := ⟨⟨738952, .AfterMarket⟩, "Y"⟩

/-- Observation of spec Scenario B from source "Z": `Unknown` timing on
Thursday 2024-03-07 (day 738952). -/
def obsZ : SourcedEarningsTime := ⟨⟨738952, .Unknown⟩, "Z"⟩

lemma emod7_nonneg (d : Int) : 0 ≤ (d - 1) % 7 := Int.emod_nonneg _ (by norm_num)

lemma emod7_lt (d : Int) : (d - 1) % 7 < 7 := Int.emod_lt_of_pos _ (by norm_num)

lemma weekday_iff_mon (d : Int) : weekday d = .mon ↔ (d - 1) % 7 = 0 := by
  have h0 := emod7_nonneg d
  have h7 := emod7_lt d
  constructor
  · intro h
    unfold weekday at h
    split at h <;> (try cases h) <;> (try simp only [imp_false] at *) <;> omega
  · intro h
    unfold weekday
    rw [h]
    decide

lemma weekday_iff_tue (d : Int) : weekday d = .tue ↔ (d - 1) % 7 = 1 := by
  have h0 := emod7_nonneg d
  have h7 := emod7_lt d
  constructor
  · intro h
    unfold weekday at h
    split at h <;> (try cases h) <;> (try simp only [imp_false] at *) <;> omega
  · intro h
    unfold weekday
    rw [h]
    decide

lemma weekday_iff_wed (d : Int) : weekday d = .wed ↔ (d - 1) % 7 = 2 := by
  have h0 := emod7_nonneg d
  have h7 := emod7_lt d
  constructor
  · intro h
    unfold weekday at h
    split at h <;> (try cases h) <;> (try simp only [imp_false] at *) <;> omega
  · intro h
    unfold weekday
    rw [h]
    decide

lemma weekday_iff_thu (d : Int) : weekday d = .thu ↔ (d - 1) % 7 = 3 := by
  have h0 := emod7_nonneg d
  have h7 := emod7_lt d
  constructor
  · intro h
    unfold weekday at h
    split at h <;> (try cases h) <;> (try simp only [imp_false] at *) <;> omega
  · intro h
    unfold weekday
    rw [h]
    decide

lemma weekday_iff_fri (d : Int) : weekday d = .fri ↔ (d - 1) % 7 = 4 := by
  have h0 := emod7_nonneg d
  have h7 := emod7_lt d
  constructor
  · intro h
    unfold weekday at h
    split at h <;> (try cases h) <;> (try simp only [imp_false] at *) <;> omega
  · intro h
    unfold weekday
    rw [h]
    decide

lemma weekday_iff_sat (d : Int) : weekday d = .sat ↔ (d - 1) % 7 = 5 := by
  have h0 := emod7_nonneg d
  have h7 := emod7_lt d
  constructor
  · intro h
    unfold weekday at h
    split at h <;> (try cases h) <;> (try simp only [imp_false] at *) <;> omega
  · intro h
    unfold weekday
    rw [h]
    decide

lemma weekday_iff_sun (d : Int) : weekday d = .sun ↔ (d - 1) % 7 = 6 := by
  have h0 := emod7_nonneg d
  have h7 := emod7_lt d
  constructor
  · intro h
    unfold weekday at h
    split at h <;> (try cases h) <;> (try simp only [imp_false] at *) <;> omega
  · intro h
    unfold weekday
    have h6 : ((d - 1) % 7).toNat = 6 := by omega
    rw [h6]

lemma prev_trading_day_lt (d : Int) : prev_trading_day d < d := by
  unfold prev_trading_day
  cases hw : weekday d <;> simp <;> omega

lemma lt_next_trading_day (d : Int) : d < next_trading_day d := by
  unfold next_trading_day
  cases hw : weekday d <;> simp <;> omega

lemma prev_trading_day_bounds (d : Int) : d - 3 ≤ prev_trading_day d := by
  unfold prev_trading_day
  cases hw : weekday d <;> simp <;> omega

lemma next_trading_day_bounds (d : Int) : next_trading_day d ≤ d + 3 := by
  unfold next_trading_day
  cases hw : weekday d <;> simp <;> omega

lemma closest_trading_day_bounds (d : Int) :
    d - 2 ≤ closest_trading_day d ∧ closest_trading_day d ≤ d := by
  unfold closest_trading_day
  cases hw : weekday d <;> simp <;> omega

lemma round_trip_of_trading_weekday (d : Int) (h : isTradingWeekday d = true) :
    next_trading_day (prev_trading_day d) = d := by
  unfold isTradingWeekday at h
  cases hw : weekday d
  case mon =>
    have hm := (weekday_iff_mon d).mp hw
    have hp : prev_trading_day d = d - 3 := by simp [prev_trading_day, hw]
    have hf : weekday (d - 3) = .fri := (weekday_iff_fri (d - 3)).mpr (by omega)
    rw [hp]
    simp only [next_trading_day, hf]
    omega
  case tue =>
    have hm := (weekday_iff_tue d).mp hw
    have hp : prev_trading_day d = d - 1 := by simp [prev_trading_day, hw]
    have hf : weekday (d - 1) = .mon := (weekday_iff_mon (d - 1)).mpr (by omega)
    rw [hp]
    simp only [next_trading_day, hf]
    omega
  case wed =>
    have hm := (weekday_iff_wed d).mp hw
    have hp : prev_trading_day d = d - 1 := by simp [prev_trading_day, hw]
    have hf : weekday (d - 1) = .tue := (weekday_iff_tue (d - 1)).mpr (by omega)
    rw [hp]
    simp only [next_trading_day, hf]
    omega
  case thu =>
    have hm := (weekday_iff_thu d).mp hw
    have hp : prev_trading_day d = d - 1 := by simp [prev_trading_day, hw]
    have hf : weekday (d - 1) = .wed := (weekday_iff_wed (d - 1)).mpr (by omega)
    rw [hp]
    simp only [next_trading_day, hf]
    omega
  case fri =>
    have hm := (weekday_iff_fri d).mp hw
    have hp : prev_trading_day d = d - 1 := by simp [prev_trading_day, hw]
    have hf : weekday (d - 1) = .thu := (weekday_iff_thu (d - 1)).mpr (by omega)
    rw [hp]
    simp only [next_trading_day, hf]
    omega
  case sat =>
    rw [hw] at h
    simp at h
  case sun =>
    rw [hw] at h
    simp at h

/-- C6: the trading-calendar functions satisfy the explicit value table
(Friday jumps +3 to a Monday, Saturday +2 to a Monday, Sunday steps back -2 to
a Friday, Monday steps back -3 to a Friday) and the round trip
`next_trading_day (prev_trading_day d) = d` on every weekday `d` (which in
particular covers every weekday not adjacent to a weekend-spanning jump). -/
theorem c6_calendar_table_and_round_trip (df ds du dm dw : Int)
    (hf : weekday df = .fri) (hs : weekday ds = .sat) (hu : weekday du = .sun)
    (hm : weekday dm = .mon) (hw : isTradingWeekday dw = true) :
    (next_trading_day df = df + 3 ∧ weekday (next_trading_day df) = .mon) ∧
    (next_trading_day ds = ds + 2 ∧ weekday (next_trading_day ds) = .mon) ∧
    (prev_trading_day du = du - 2 ∧ weekday (prev_trading_day du) = .fri) ∧
    (prev_trading_day dm = dm - 3 ∧ weekday (prev_trading_day dm) = .fri) ∧
    next_trading_day (prev_trading_day dw) = dw := by
  have hf7 := (weekday_iff_fri df).mp hf
  have hs7 := (weekday_iff_sat ds).mp hs
  have hu7 := (weekday_iff_sun du).mp hu
  have hm7 := (weekday_iff_mon dm).mp hm
  have e1 : next_trading_day df = df + 3 := by simp [next_trading_day, hf]
  have e2 : next_trading_day ds = ds + 2 := by simp [next_trading_day, hs]
  have e3 : prev_trading_day du = du - 2 := by simp [prev_trading_day, hu]
  have e4 : prev_trading_day dm = dm - 3 := by simp [prev_trading_day, hm]
  refine ⟨⟨e1, ?_⟩, ⟨e2, ?_⟩, ⟨e3, ?_⟩, ⟨e4, ?_⟩, round_trip_of_trading_weekday dw hw⟩
  · rw [e1]
    exact (weekday_iff_mon (df + 3)).mpr (by omega)
  · rw [e2]
    exact (weekday_iff_mon (ds + 2)).mpr (by omega)
  · rw [e3]
    exact (weekday_iff_fri (du - 2)).mpr (by omega)
  · rw [e4]
    exact (weekday_iff_fri (dm - 3)).mpr (by omega)

/-- Witness for C6 at concrete dates: Friday 2024-03-08, Saturday 2024-03-09,
Sunday 2024-03-10, Monday 2024-03-11, and the weekday Wednesday 2024-03-06
(day numbers from the Common Era). -/
theorem c6_calendar_witness :
    (weekday 738953 = .fri ∧ weekday 738954 = .sat ∧ weekday 738955 = .sun ∧
      weekday 738956 = .mon ∧ isTradingWeekday 738951 = true) ∧
    ((next_trading_day 738953 = 738953 + 3 ∧ weekday (next_trading_day 738953) = .mon) ∧
      (next_trading_day 738954 = 738954 + 2 ∧ weekday (next_trading_day 738954) = .mon) ∧
      (prev_trading_day 738955 = 738955 - 2 ∧ weekday (prev_trading_day 738955) = .fri) ∧
      (prev_trading_day 738956 = 738956 - 3 ∧ weekday (prev_trading_day 738956) = .fri) ∧
      next_trading_day (prev_trading_day 738951) = 738951) :=
  ⟨by decide, c6_calendar_table_and_round_trip 738953 738954 738955 738956 738951
    (by decide) (by decide) (by decide) (by decide) (by decide)⟩

/-- C8 counterexample: on the bounded chrono `NaiveDate` range the stepping
functions are not total.  At the largest representable date `next_trading_day`
panics (modelled by `none`), and at the smallest representable date
`prev_trading_day` panics. -/
theorem c8_boundary_counterexample :
    (dateMinDays ≤ dateMaxDays ∧ dateMaxDays ≤ dateMaxDays ∧
      dateMinDays ≤ dateMinDays) ∧
    next_trading_dayChecked dateMaxDays = none ∧
    prev_trading_dayChecked dateMinDays = none := by decide

/-- C8 amended: `closest_trading_day`, `next_trading_day` and
`prev_trading_day` succeed on every representable date at distance at least
three days from the calendar-era boundaries. -/
theorem c8_total_within_margin (d : Int)
    (h1 : dateMinDays + 3 ≤ d) (h2 : d + 3 ≤ dateMaxDays) :
    (closest_trading_dayChecked d).isSome = true ∧
    (next_trading_dayChecked d).isSome = true ∧
    (prev_trading_dayChecked d).isSome = true := by
  have hc := closest_trading_day_bounds d
  have hp1 := prev_trading_day_bounds d
  have hp2 := prev_trading_day_lt d
  have hn1 := next_trading_day_bounds d
  have hn2 := lt_next_trading_day d
  simp only [dateMinDays, dateMaxDays] at h1 h2
  refine ⟨?_, ?_, ?_⟩
  · unfold closest_trading_dayChecked
    split
    · rfl
    · exfalso
      simp only [dateMinDays, dateMaxDays] at *
      omega
  · unfold next_trading_dayChecked
    split
    · rfl
    · exfalso
      simp only [dateMinDays, dateMaxDays] at *
      omega
  · unfold prev_trading_dayChecked
    split
    · rfl
    · exfalso
      simp only [dateMinDays, dateMaxDays] at *
      omega

/-- Witness for the amended C8 at the concrete date 2024-03-07. -/
theorem c8_total_within_margin_witness :
    (dateMinDays + 3 ≤ 738952 ∧ 738952 + 3 ≤ dateMaxDays) ∧
    ((closest_trading_dayChecked 738952).isSome = true ∧
      (next_trading_dayChecked 738952).isSome = true ∧
      (prev_trading_dayChecked 738952).isSome = true) :=
  ⟨by decide, c8_total_within_margin 738952 (by decide) (by decide)⟩

lemma findGuess_insertGuess_same (m : GuessMap) (k : Int) (v : SourcedEarningsTime × Bool) :
    findGuess (insertGuess m k v) k = some (entriesAt m k ++ [v]) := by
  induction m with
  | nil => simp [insertGuess, findGuess, entriesAt]
  | cons p rest ih =>
    obtain ⟨k1, vs⟩ := p
    by_cases h : k1 = k
    · subst h
      simp [insertGuess, findGuess, entriesAt]
    · simp [insertGuess, findGuess, entriesAt, h, ih]

lemma findGuess_insertGuess_other (m : GuessMap) (k : Int) (v : SourcedEarningsTime × Bool)
    (d : Int) (h : k ≠ d) : findGuess (insertGuess m k v) d = findGuess m d := by
  induction m with
  | nil => simp [insertGuess, findGuess, h]
  | cons p rest ih =>
    obtain ⟨k1, vs⟩ := p
    by_cases h1 : k1 = k
    · subst h1
      simp [insertGuess, findGuess, h]
    · simp [insertGuess, findGuess, h1, ih]

lemma entriesAt_insertGuess (m : GuessMap) (k : Int) (v : SourcedEarningsTime × Bool) (d : Int) :
    entriesAt (insertGuess m k v) d = entriesAt m d ++ (if k = d then [v] else []) := by
  by_cases h : k = d
  · subst h
    simp [entriesAt, findGuess_insertGuess_same]
  · simp [entriesAt, findGuess_insertGuess_other m k v d h, h]

lemma findGuess_eraseGuess (m : GuessMap) (k d : Int) :
    findGuess (eraseGuess m k) d = if d = k then none else findGuess m d := by
  induction m with
  | nil => by_cases h : d = k <;> simp [eraseGuess, findGuess, h]
  | cons p rest ih =>
    obtain ⟨k1, vs⟩ := p
    by_cases h1 : k1 = k
    · have he : eraseGuess ((k1, vs) :: rest) k = eraseGuess rest k := by
        simp [eraseGuess, h1]
      rw [he, ih]
      by_cases h2 : d = k
      · simp [h2]
      · have hk1 : ¬ k1 = d := by
          rw [h1]
          exact fun hh => h2 hh.symm
        simp [findGuess, h2, hk1]
    · have he : eraseGuess ((k1, vs) :: rest) k = (k1, vs) :: eraseGuess rest k := by
        simp [eraseGuess, h1]
      rw [he]
      by_cases h2 : k1 = d
      · have hd : ¬ d = k := by
          rw [← h2]
          exact h1
        simp [findGuess, h2, hd]
      · simp [findGuess, h2, ih]

lemma entriesAt_eraseGuess (m : GuessMap) (k d : Int) :
    entriesAt (eraseGuess m k) d = if d = k then [] else entriesAt m d := by
  by_cases h : d = k <;> simp [entriesAt, findGuess_eraseGuess, h]

lemma entriesAt_registerObs (m : GuessMap) (o : SourcedEarningsTime) (d : Int) :
    entriesAt (registerObs m o) d = entriesAt m d ++ regEntryAt o d := by
  unfold registerObs regEntryAt
  by_cases hf : o.datetime.last_session.2
  · rw [if_pos hf, if_pos hf, entriesAt_insertGuess, entriesAt_insertGuess,
      entriesAt_insertGuess]
    simp [List.append_assoc]
  · rw [if_neg hf, if_neg hf, entriesAt_insertGuess]

lemma entriesAt_foldl_registerObs (l : List SourcedEarningsTime) (m : GuessMap) (d : Int) :
    entriesAt (l.foldl registerObs m) d =
      entriesAt m d ++ l.bind (fun o => regEntryAt o d) := by
  induction l generalizing m with
  | nil => simp
  | cons o rest ih =>
    simp only [List.foldl_cons, List.cons_bind]
    rw [ih, entriesAt_registerObs, List.append_assoc]

lemma entriesAt_buildGuesses (l : List SourcedEarningsTime) (d : Int) :
    entriesAt (buildGuesses l) d = l.bind (fun o => regEntryAt o d) := by
  unfold buildGuesses
  rw [entriesAt_foldl_registerObs]
  simp [entriesAt, findGuess]

lemma findGuess_mem (m : GuessMap) (k : Int) (vs : List (SourcedEarningsTime × Bool))
    (h : findGuess m k = some vs) : (k, vs) ∈ m := by
  induction m with
  | nil => simp [findGuess] at h
  | cons p rest ih =>
    obtain ⟨k1, vs1⟩ := p
    by_cases h1 : k1 = k
    · subst h1
      simp [findGuess] at h
      subst h
      simp
    · simp [findGuess, h1] at h
      simp [ih h]

lemma mem_findGuess (m : GuessMap) (k : Int) (vs : List (SourcedEarningsTime × Bool))
    (hnd : (m.map Prod.fst).Nodup) (h : (k, vs) ∈ m) : findGuess m k = some vs := by
  induction m with
  | nil => simp at h
  | cons p rest ih =>
    obtain ⟨k1, vs1⟩ := p
    simp only [List.map_cons, List.nodup_cons] at hnd
    rcases List.mem_cons.mp h with heq | hmem
    · rw [Prod.ext_iff] at heq
      obtain ⟨hk, hv⟩ := heq
      simp at hk hv
      subst hk
      simp [findGuess, hv]
    · have hk1 : ¬ k1 = k := by
        intro hh
        subst hh
        exact hnd.1 (by
          have : k1 ∈ rest.map Prod.fst := List.mem_map_of_mem Prod.fst hmem
          simpa using this)
      simp [findGuess, hk1, ih hnd.2 hmem]

lemma keys_insertGuess (m : GuessMap) (k : Int) (v : SourcedEarningsTime × Bool) (d : Int) :
    d ∈ (insertGuess m k v).map Prod.fst ↔ d ∈ m.map Prod.fst ∨ d = k := by
  induction m with
  | nil => simp [insertGuess]
  | cons p rest ih =>
    obtain ⟨k1, vs⟩ := p
    by_cases h1 : k1 = k
    · subst h1
      simp [insertGuess]
      tauto
    · simp [insertGuess, h1, ih]
      tauto

lemma keys_nodup_insertGuess (m : GuessMap) (k : Int) (v : SourcedEarningsTime × Bool)
    (h : (m.map Prod.fst).Nodup) : ((insertGuess m k v).map Prod.fst).Nodup := by
  induction m with
  | nil => simp [insertGuess]
  | cons p rest ih =>
    obtain ⟨k1, vs⟩ := p
    simp only [List.map_cons, List.nodup_cons] at h
    by_cases h1 : k1 = k
    · subst h1
      rw [show insertGuess ((k1, vs) :: rest) k1 v = (k1, vs ++ [v]) :: rest by
        simp [insertGuess]]
      simp only [List.map_cons, List.nodup_cons]
      exact ⟨h.1, h.2⟩
    · rw [show insertGuess ((k1, vs) :: rest) k v = (k1, vs) :: insertGuess rest k v by
        simp [insertGuess, h1]]
      simp only [List.map_cons, List.nodup_cons]
      refine ⟨?_, ih h.2⟩
      intro hmem
      rw [keys_insertGuess] at hmem
      rcases hmem with hmem | hk
      · exact h.1 hmem
      · exact h1 hk

lemma buckets_ne_insertGuess (m : GuessMap) (k : Int) (v : SourcedEarningsTime × Bool)
    (h : ∀ p ∈ m, p.2 ≠ []) : ∀ p ∈ insertGuess m k v, p.2 ≠ [] := by
  induction m with
  | nil =>
    intro p hp
    simp [insertGuess] at hp
    subst hp
    simp
  | cons q rest ih =>
    obtain ⟨k1, vs⟩ := q
    intro p hp
    by_cases h1 : k1 = k
    · rw [show insertGuess ((k1, vs) :: rest) k v = (k1, vs ++ [v]) :: rest by
        simp [insertGuess, h1]] at hp
      rcases List.mem_cons.mp hp with rfl | hp
      · simp
      · exact h p (by simp [hp])
    · rw [show insertGuess ((k1, vs) :: rest) k v = (k1, vs) :: insertGuess rest k v by
        simp [insertGuess, h1]] at hp
      rcases List.mem_cons.mp hp with rfl | hp
      · exact h (k1, vs) (by simp)
      · exact ih (fun q hq => h q (by simp [hq])) p hp

lemma keys_nodup_registerObs (m : GuessMap) (o : SourcedEarningsTime)
    (h : (m.map Prod.fst).Nodup) : ((registerObs m o).map Prod.fst).Nodup := by
  unfold registerObs
  by_cases hf : o.datetime.last_session.2
  · rw [if_pos hf]
    exact keys_nodup_insertGuess _ _ _ (keys_nodup_insertGuess _ _ _
      (keys_nodup_insertGuess _ _ _ h))
  · rw [if_neg hf]
    exact keys_nodup_insertGuess _ _ _ h

lemma buckets_ne_registerObs (m : GuessMap) (o : SourcedEarningsTime)
    (h : ∀ p ∈ m, p.2 ≠ []) : ∀ p ∈ registerObs m o, p.2 ≠ [] := by
  unfold registerObs
  by_cases hf : o.datetime.last_session.2
  · rw [if_pos hf]
    exact buckets_ne_insertGuess _ _ _ (buckets_ne_insertGuess _ _ _
      (buckets_ne_insertGuess _ _ _ h))
  · rw [if_neg hf]
    exact buckets_ne_insertGuess _ _ _ h

lemma keys_nodup_buildGuesses (l : List SourcedEarningsTime) :
    ((buildGuesses l).map Prod.fst).Nodup := by
  have main : ∀ m : GuessMap, (m.map Prod.fst).Nodup →
      ((l.foldl registerObs m).map Prod.fst).Nodup := by
    induction l with
    | nil => intro m hm; simpa using hm
    | cons o rest ih =>
      intro m hm
      simpa using ih (registerObs m o) (keys_nodup_registerObs m o hm)
  simpa [buildGuesses] using main [] (by simp)

lemma buckets_ne_buildGuesses (l : List SourcedEarningsTime) :
    ∀ p ∈ buildGuesses l, p.2 ≠ [] := by
  have main : ∀ m : GuessMap, (∀ p ∈ m, p.2 ≠ []) →
      ∀ p ∈ l.foldl registerObs m, p.2 ≠ [] := by
    induction l with
    | nil => intro m hm; simpa using hm
    | cons o rest ih =>
      intro m hm
      simpa using ih (registerObs m o) (buckets_ne_registerObs m o hm)
  simpa [buildGuesses] using main [] (by simp)

lemma findGuess_none_iff (m : GuessMap) (hne : ∀ p ∈ m, p.2 ≠ []) (d : Int) :
    findGuess m d = none ↔ entriesAt m d = [] := by
  constructor
  · intro h
    simp [entriesAt, h]
  · intro h
    cases hfind : findGuess m d with
    | none => rfl
    | some vs =>
      exfalso
      have hmem := findGuess_mem m d vs hfind
      have := hne (d, vs) hmem
      simp [entriesAt, hfind] at h
      exact this h

lemma regEntryAt_fst (o : SourcedEarningsTime) (d : Int) :
    ∀ e ∈ regEntryAt o d, e.1 = o := by
  intro e he
  unfold regEntryAt at he
  by_cases hf : o.datetime.last_session.2
  · rw [if_pos hf] at he
    simp only [List.mem_append, List.mem_ite_nil_right, List.mem_singleton] at he
    obtain (⟨_, rfl⟩ | ⟨_, rfl⟩) | ⟨_, rfl⟩ := he <;> rfl
  · rw [if_neg hf] at he
    simp only [List.mem_ite_nil_right, List.mem_singleton] at he
    obtain ⟨_, rfl⟩ := he
    rfl

lemma regEntryAt_eq (o : SourcedEarningsTime) (d : Int) :
    regEntryAt o d =
      if d ∈ regKeys o then [(o, o.datetime.last_session.2)] else [] := by
  have h1 : prev_trading_day o.datetime.last_session.1 < o.datetime.last_session.1 :=
    prev_trading_day_lt _
  have h2 : o.datetime.last_session.1 < next_trading_day o.datetime.last_session.1 :=
    lt_next_trading_day _
  unfold regEntryAt regKeys
  by_cases hf : o.datetime.last_session.2
  · rw [if_pos hf, if_pos hf]
    by_cases hd1 : o.datetime.last_session.1 = d
    · have hd2 : ¬ next_trading_day o.datetime.last_session.1 = d := by omega
      have hd3 : ¬ prev_trading_day o.datetime.last_session.1 = d := by omega
      rw [if_pos hd1, if_neg hd2, if_neg hd3,
        if_pos (show d ∈ _ from by rw [← hd1]; exact List.mem_cons_self _ _)]
      simp
    · by_cases hd2 : next_trading_day o.datetime.last_session.1 = d
      · have hd3 : ¬ prev_trading_day o.datetime.last_session.1 = d := by omega
        rw [if_neg hd1, if_pos hd2, if_neg hd3,
          if_pos (show d ∈ _ from by rw [← hd2]; simp)]
        simp [hf]
      · by_cases hd3 : prev_trading_day o.datetime.last_session.1 = d
        · rw [if_neg hd1, if_neg hd2, if_pos hd3,
            if_pos (show d ∈ _ from by rw [← hd3]; simp)]
          simp [hf]
        · have hm : d ∉ [o.datetime.last_session.1,
              next_trading_day o.datetime.last_session.1,
              prev_trading_day o.datetime.last_session.1] := by
            intro hmem
            simp only [List.mem_cons, List.mem_singleton, List.not_mem_nil, or_false]
              at hmem
            rcases hmem with h | h | h
            exacts [hd1 h.symm, hd2 h.symm, hd3 h.symm]
          rw [if_neg hd1, if_neg hd2, if_neg hd3, if_neg hm]
          simp
  · rw [if_neg hf, if_neg hf]
    by_cases hd1 : o.datetime.last_session.1 = d
    · rw [if_pos hd1, if_pos (show d ∈ _ from by rw [← hd1]; simp)]
    · have hm : d ∉ [o.datetime.last_session.1] := by
        intro hmem
        simp only [List.mem_singleton] at hmem
        exact hd1 hmem.symm
      rw [if_neg hd1, if_neg hm]

lemma session_mem_regKeys (o : SourcedEarningsTime) :
    o.datetime.last_session.1 ∈ regKeys o := by
  unfold regKeys
  by_cases hf : o.datetime.last_session.2 <;> simp [hf]

lemma filter_source_bind_none (rest : List SourcedEarningsTime) (src : String) (d : Int)
    (h : ¬ src ∈ rest.map (fun s => s.source)) :
    (rest.bind (fun s => regEntryAt s d)).filter (fun e => e.1.source == src) = [] := by
  induction rest with
  | nil => simp
  | cons a tail ih =>
    simp only [List.map_cons, List.mem_cons] at h
    push_neg at h
    simp only [List.cons_bind, List.filter_append]
    rw [ih h.2, List.append_nil]
    rw [List.filter_eq_nil_iff]
    intro e he
    have hfst := regEntryAt_fst a d e he
    rw [hfst]
    simp only [beq_iff_eq]
    exact fun hh => h.1 hh.symm

lemma filter_source_bind (l : List SourcedEarningsTime) (o : SourcedEarningsTime) (d : Int)
    (hnd : (l.map (fun s => s.source)).Nodup) (ho : o ∈ l) :
    (l.bind (fun s => regEntryAt s d)).filter (fun e => e.1.source == o.source) =
      regEntryAt o d := by
  induction l with
  | nil => simp at ho
  | cons a rest ih =>
    simp only [List.map_cons, List.nodup_cons] at hnd
    simp only [List.cons_bind, List.filter_append]
    rcases List.mem_cons.mp ho with rfl | hmem
    · rw [filter_source_bind_none rest o.source d hnd.1, List.append_nil]
      rw [List.filter_eq_self]
      intro e he
      have hfst := regEntryAt_fst o d e he
      rw [hfst]
      simp
    · have hsrc : ¬ a.source = o.source := by
        intro hh
        exact hnd.1 (by
          rw [hh]
          exact List.mem_map_of_mem (fun s => s.source) hmem)
      rw [ih hnd.2 hmem]
      have : (regEntryAt a d).filter (fun e => e.1.source == o.source) = [] := by
        rw [List.filter_eq_nil_iff]
        intro e he
        have hfst := regEntryAt_fst a d e he
        rw [hfst]
        simp only [beq_iff_eq]
        exact hsrc
      rw [this, List.nil_append]

/-- C4: on an input whose sources are pairwise distinct, an observation with
announce time `BeforeMarket` is registered exactly once, under
`prev_trading_day` of its date; one with `AfterMarket` exactly once, under its
date; and one with `Unknown` timing exactly under the three keys given by its
own date, the next trading day and the previous trading day (each exactly
once, as a fuzzy entry). -/
theorem c4_registration (l : List SourcedEarningsTime) (o : SourcedEarningsTime) (d : Int)
    (hnd : (l.map (fun s => s.source)).Nodup) (ho : o ∈ l) :
    (o.datetime.time = .BeforeMarket →
      (entriesAt (buildGuesses l) d).filter (fun e => e.1.source == o.source) =
        (if d = prev_trading_day o.datetime.date then [(o, false)] else [])) ∧
    (o.datetime.time = .AfterMarket →
      (entriesAt (buildGuesses l) d).filter (fun e => e.1.source == o.source) =
        (if d = o.datetime.date then [(o, false)] else [])) ∧
    (o.datetime.time = .Unknown →
      (entriesAt (buildGuesses l) d).filter (fun e => e.1.source == o.source) =
        (if d = o.datetime.date ∨ d = next_trading_day o.datetime.date ∨
            d = prev_trading_day o.datetime.date then [(o, true)] else [])) := by
  have key : (entriesAt (buildGuesses l) d).filter (fun e => e.1.source == o.source) =
      (if d ∈ regKeys o then [(o, o.datetime.last_session.2)] else []) := by
    rw [entriesAt_buildGuesses, filter_source_bind l o d hnd ho, regEntryAt_eq]
  refine ⟨?_, ?_, ?_⟩ <;> intro ht <;> rw [key]
  · have hs : o.datetime.last_session = (prev_trading_day o.datetime.date, false) := by
      unfold EarningsDateTime.last_session
      rw [ht]
    unfold regKeys
    rw [hs]
    simp [eq_comm]
  · have hs : o.datetime.last_session = (o.datetime.date, false) := by
      unfold EarningsDateTime.last_session
      rw [ht]
    unfold regKeys
    rw [hs]
    simp [eq_comm]
  · have hs : o.datetime.last_session = (o.datetime.date, true) := by
      unfold EarningsDateTime.last_session
      rw [ht]
    unfold regKeys
    rw [hs]
    simp [eq_comm]

/-- Witness for C4 on a two-source input: a `BeforeMarket` observation from
"X" and an `Unknown` observation from "Z", checked at the date 2024-03-07. -/
theorem c4_registration_witness :
    ((([(⟨⟨738953, .BeforeMarket⟩, "X"⟩ : SourcedEarningsTime),
        ⟨⟨738952, .Unknown⟩, "Z"⟩]).map (fun s => s.source)).Nodup ∧
      (⟨⟨738952, .Unknown⟩, "Z"⟩ : SourcedEarningsTime) ∈
        [(⟨⟨738953, .BeforeMarket⟩, "X"⟩ : SourcedEarningsTime),
          ⟨⟨738952, .Unknown⟩, "Z"⟩]) ∧
    (((⟨⟨738952, .Unknown⟩, "Z"⟩ : SourcedEarningsTime).datetime.time = .BeforeMarket →
      (entriesAt (buildGuesses [(⟨⟨738953, .BeforeMarket⟩, "X"⟩ : SourcedEarningsTime),
          ⟨⟨738952, .Unknown⟩, "Z"⟩]) 738952).filter
          (fun e => e.1.source == (⟨⟨738952, .Unknown⟩, "Z"⟩ : SourcedEarningsTime).source) =
        (if (738952 : Int) = prev_trading_day
            (⟨⟨738952, .Unknown⟩, "Z"⟩ : SourcedEarningsTime).datetime.date then
          [(⟨⟨738952, .Unknown⟩, "Z"⟩, false)] else [])) ∧
    ((⟨⟨738952, .Unknown⟩, "Z"⟩ : SourcedEarningsTime).datetime.time = .AfterMarket →
      (entriesAt (buildGuesses [(⟨⟨738953, .BeforeMarket⟩, "X"⟩ : SourcedEarningsTime),
          ⟨⟨738952, .Unknown⟩, "Z"⟩]) 738952).filter
          (fun e => e.1.source == (⟨⟨738952, .Unknown⟩, "Z"⟩ : SourcedEarningsTime).source) =
        (if (738952 : Int) = (⟨⟨738952, .Unknown⟩, "Z"⟩ : SourcedEarningsTime).datetime.date then
          [(⟨⟨738952, .Unknown⟩, "Z"⟩, false)] else [])) ∧
    ((⟨⟨738952, .Unknown⟩, "Z"⟩ : SourcedEarningsTime).datetime.time = .Unknown →
      (entriesAt (buildGuesses [(⟨⟨738953, .BeforeMarket⟩, "X"⟩ : SourcedEarningsTime),
          ⟨⟨738952, .Unknown⟩, "Z"⟩]) 738952).filter
          (fun e => e.1.source == (⟨⟨738952, .Unknown⟩, "Z"⟩ : SourcedEarningsTime).source) =
        (if (738952 : Int) = (⟨⟨738952, .Unknown⟩, "Z"⟩ : SourcedEarningsTime).datetime.date ∨
            (738952 : Int) = next_trading_day
              (⟨⟨738952, .Unknown⟩, "Z"⟩ : SourcedEarningsTime).datetime.date ∨
            (738952 : Int) = prev_trading_day
              (⟨⟨738952, .Unknown⟩, "Z"⟩ : SourcedEarningsTime).datetime.date then
          [(⟨⟨738952, .Unknown⟩, "Z"⟩, true)] else []))) :=
  ⟨⟨by decide, by decide⟩,
    c4_registration
      [(⟨⟨738953, .BeforeMarket⟩, "X"⟩ : SourcedEarningsTime), ⟨⟨738952, .Unknown⟩, "Z"⟩]
      ⟨⟨738952, .Unknown⟩, "Z"⟩ 738952 (by decide) (by decide)⟩

lemma selBeats_trans {a : Nat} {b : Int} {c : Nat} {d : Int} {e : Nat} {f : Int}
    (h1 : selBeats a b c d) (h2 : selBeats c d e f) : selBeats a b e f := by
  unfold selBeats at *
  omega

lemma selBeats_irrefl (a : Nat) (b : Int) : ¬ selBeats a b a b := by
  unfold selBeats
  omega

lemma selFoldFuzzy_not_beaten (today : Int) (m : GuessMap) (st : Nat × Int)
    (c : Nat) (d : Int) (h : ¬ selBeats c d st.1 st.2) :
    ¬ selBeats c d (m.foldl (selStepFuzzy today) st).1 (m.foldl (selStepFuzzy today) st).2 := by
  induction m generalizing st with
  | nil => exact h
  | cons e rest ih =>
    simp only [List.foldl_cons]
    apply ih
    unfold selStepFuzzy
    split
    · exact h
    · split
      · rename_i hb
        intro hc
        exact h (selBeats_trans hc hb)
      · exact h

lemma selFoldFuzzy_ub (today : Int) (m : GuessMap) (st : Nat × Int) :
    ∀ e ∈ m, ¬ e.1 < today →
      ¬ selBeats e.2.length e.1 (m.foldl (selStepFuzzy today) st).1
        (m.foldl (selStepFuzzy today) st).2 := by
  induction m generalizing st with
  | nil =>
    intro e he
    simp at he
  | cons a rest ih =>
    intro e he hel
    rcases List.mem_cons.mp he with rfl | hmem
    · simp only [List.foldl_cons]
      apply selFoldFuzzy_not_beaten
      unfold selStepFuzzy
      rw [if_neg hel]
      split
      · exact selBeats_irrefl _ _
      · assumption
    · simp only [List.foldl_cons]
      exact ih _ e hmem hel

lemma selFoldFuzzy_mem (today : Int) (m : GuessMap) (st : Nat × Int) :
    m.foldl (selStepFuzzy today) st = st ∨
      ∃ e ∈ m, ¬ e.1 < today ∧
        m.foldl (selStepFuzzy today) st = (e.2.length, e.1) := by
  induction m generalizing st with
  | nil => exact Or.inl rfl
  | cons a rest ih =>
    simp only [List.foldl_cons]
    rcases ih (selStepFuzzy today st a) with heq | hcase
    · rw [heq]
      unfold selStepFuzzy
      by_cases h1 : a.1 < today
      · rw [if_pos h1]
        exact Or.inl rfl
      · rw [if_neg h1]
        split
        · exact Or.inr ⟨a, List.mem_cons_self a rest, h1, rfl⟩
        · exact Or.inl rfl
    · obtain ⟨e, hmem, hel, heq⟩ := hcase
      exact Or.inr ⟨e, List.mem_cons_of_mem a hmem, hel, heq⟩

lemma selFold_proj (today : Int) (m : GuessMap) (st : SelState) :
    ((m.foldl (selStep today) st).highest_fuzzy_count,
      (m.foldl (selStep today) st).highest_fuzzy_date) =
      m.foldl (selStepFuzzy today) (st.highest_fuzzy_count, st.highest_fuzzy_date) := by
  induction m generalizing st with
  | nil => rfl
  | cons e rest ih =>
    simp only [List.foldl_cons]
    rw [ih (selStep today st e)]
    congr 1
    unfold selStep selStepFuzzy
    by_cases h1 : e.1 < today
    · rw [if_pos h1, if_pos h1]
    · rw [if_neg h1, if_neg h1]
      dsimp only
      by_cases h2 : selBeats e.2.length e.1 st.highest_fuzzy_count st.highest_fuzzy_date
      · rw [if_pos h2, if_pos h2]
        split <;> rfl
      · rw [if_neg h2, if_neg h2]
        split <;> rfl

lemma best_earnings_guess_eq (today : Int) (l : List SourcedEarningsTime) :
    best_earnings_guess today l =
      bucketize (buildGuesses l) (((buildGuesses l).foldl (selStepFuzzy today) (0, 1)).2) := by
  have h2 : ((buildGuesses l).foldl (selStep today) ⟨0, 1, 0, 1⟩).highest_fuzzy_date =
      ((buildGuesses l).foldl (selStepFuzzy today) (0, 1)).2 :=
    congrArg Prod.snd (selFold_proj today (buildGuesses l) ⟨0, 1, 0, 1⟩)
  simp only [best_earnings_guess]
  rw [h2]

lemma bucketize_some (m : GuessMap) (b : Int)
    (bucket : List (SourcedEarningsTime × Bool)) (h : findGuess m b = some bucket) :
    ∃ g, bucketize m b = some g ∧ g.last_session = b := by
  unfold bucketize
  rw [h]
  exact ⟨_, rfl, rfl⟩

lemma entriesAt_of_mem (m : GuessMap) (k : Int) (vs : List (SourcedEarningsTime × Bool))
    (hnd : (m.map Prod.fst).Nodup) (h : (k, vs) ∈ m) : entriesAt m k = vs := by
  rw [entriesAt, mem_findGuess m k vs hnd h]
  rfl

/-- C3: when some registered candidate date lies on or after the current
date, the reconciliation succeeds, the selected `last_session` is such a
candidate, its total vote count (spillover included) is maximal among the
candidates on or after the current date, and among those with the maximal
count it is the earliest. -/
theorem c3_best_selection (today : Int) (l : List SourcedEarningsTime)
    (hex : ∃ d0 ∈ candidateDates l, today ≤ d0) :
    ∃ g, best_earnings_guess today l = some g ∧
      today ≤ g.last_session ∧ g.last_session ∈ candidateDates l ∧
      ∀ d ∈ candidateDates l, today ≤ d →
        votesAt l d ≤ votesAt l g.last_session ∧
        (votesAt l d = votesAt l g.last_session → g.last_session ≤ d) := by
  obtain ⟨d0, hd0mem, hd0to⟩ := hex
  have hnd := keys_nodup_buildGuesses l
  have hne := buckets_ne_buildGuesses l
  obtain ⟨p0, hp0m, hp0⟩ := List.mem_map.mp hd0mem
  have hub := selFoldFuzzy_ub today (buildGuesses l) (0, 1)
  have hr_entry : ∃ e ∈ buildGuesses l, ¬ e.1 < today ∧
      (buildGuesses l).foldl (selStepFuzzy today) (0, 1) = (e.2.length, e.1) := by
    rcases selFoldFuzzy_mem today (buildGuesses l) (0, 1) with heq | h
    · exfalso
      have hlt : ¬ p0.1 < today := by
        rw [hp0]
        omega
      have hnb := hub p0 hp0m hlt
      rw [heq] at hnb
      exact hnb (Or.inl (List.length_pos.mpr (hne p0 hp0m)))
    · exact h
  obtain ⟨e, hem, hel, hre⟩ := hr_entry
  have hfind : findGuess (buildGuesses l) e.1 = some e.2 :=
    mem_findGuess (buildGuesses l) e.1 e.2 hnd hem
  obtain ⟨g, hg, hgl⟩ := bucketize_some (buildGuesses l) e.1 e.2 hfind
  refine ⟨g, ?_, ?_, ?_, ?_⟩
  · rw [best_earnings_guess_eq, hre]
    exact hg
  · rw [hgl]
    omega
  · rw [hgl]
    exact List.mem_map_of_mem Prod.fst hem
  · intro d hdmem hdto
    obtain ⟨p, hpm, hp⟩ := List.mem_map.mp hdmem
    have hlt : ¬ p.1 < today := by
      rw [hp]
      omega
    have hnb := hub p hpm hlt
    rw [hre] at hnb
    unfold selBeats at hnb
    push_neg at hnb
    have hvd : votesAt l d = p.2.length := by
      rw [votesAt, ← hp, entriesAt_of_mem (buildGuesses l) p.1 p.2 hnd (by
        cases p
        exact hpm)]
    have hve : votesAt l g.last_session = e.2.length := by
      rw [votesAt, hgl, entriesAt_of_mem (buildGuesses l) e.1 e.2 hnd (by
        cases e
        exact hem)]
    rw [hvd, hve, hgl]
    constructor
    · exact hnb.1
    · intro hcnt
      have := hnb.2 hcnt
      omega

/-- Witness for C3 on the three-source input of the spec scenarios, with the
current date 2024-03-07. -/
theorem c3_best_selection_witness :
    (∃ d0 ∈ candidateDates [(⟨⟨738953, .BeforeMarket⟩, "X"⟩ : SourcedEarningsTime),
        ⟨⟨738952, .AfterMarket⟩, "Y"⟩, ⟨⟨738952, .Unknown⟩, "Z"⟩], (738952 : Int) ≤ d0) ∧
    (∃ g, best_earnings_guess 738952 [(⟨⟨738953, .BeforeMarket⟩, "X"⟩ : SourcedEarningsTime),
        ⟨⟨738952, .AfterMarket⟩, "Y"⟩, ⟨⟨738952, .Unknown⟩, "Z"⟩] = some g ∧
      (738952 : Int) ≤ g.last_session ∧
      g.last_session ∈ candidateDates [(⟨⟨738953, .BeforeMarket⟩, "X"⟩ : SourcedEarningsTime),
        ⟨⟨738952, .AfterMarket⟩, "Y"⟩, ⟨⟨738952, .Unknown⟩, "Z"⟩] ∧
      ∀ d ∈ candidateDates [(⟨⟨738953, .BeforeMarket⟩, "X"⟩ : SourcedEarningsTime),
          ⟨⟨738952, .AfterMarket⟩, "Y"⟩, ⟨⟨738952, .Unknown⟩, "Z"⟩], (738952 : Int) ≤ d →
        votesAt [(⟨⟨738953, .BeforeMarket⟩, "X"⟩ : SourcedEarningsTime),
            ⟨⟨738952, .AfterMarket⟩, "Y"⟩, ⟨⟨738952, .Unknown⟩, "Z"⟩] d ≤
          votesAt [(⟨⟨738953, .BeforeMarket⟩, "X"⟩ : SourcedEarningsTime),
            ⟨⟨738952, .AfterMarket⟩, "Y"⟩, ⟨⟨738952, .Unknown⟩, "Z"⟩] g.last_session ∧
        (votesAt [(⟨⟨738953, .BeforeMarket⟩, "X"⟩ : SourcedEarningsTime),
            ⟨⟨738952, .AfterMarket⟩, "Y"⟩, ⟨⟨738952, .Unknown⟩, "Z"⟩] d =
          votesAt [(⟨⟨738953, .BeforeMarket⟩, "X"⟩ : SourcedEarningsTime),
            ⟨⟨738952, .AfterMarket⟩, "Y"⟩, ⟨⟨738952, .Unknown⟩, "Z"⟩] g.last_session →
          g.last_session ≤ d)) :=
  ⟨by decide, c3_best_selection 738952
    [(⟨⟨738953, .BeforeMarket⟩, "X"⟩ : SourcedEarningsTime),
      ⟨⟨738952, .AfterMarket⟩, "Y"⟩, ⟨⟨738952, .Unknown⟩, "Z"⟩] (by decide)⟩

/-- C5: the separately-tracked "exact" count and date inside the scoring loop
never influence the returned guess; the variant with that tracking removed is
extensionally equal to `best_earnings_guess` on every input. -/
theorem c5_exact_tracking_unused (today : Int) (l : List SourcedEarningsTime) :
    best_earnings_guess today l = best_earnings_guess_noexact today l := by
  rw [best_earnings_guess_eq]
  simp only [best_earnings_guess_noexact]

/-- C1 evaluation: on an input whose only derived session (2024-03-01, from an
`AfterMarket` observation) lies strictly before the current date 2024-03-07,
`best_earnings_guess` reaches the `guesses.remove(&best_date).unwrap()` panic
of the source, modelled by `none`; it does not surface a recoverable error
value. -/
theorem c1_all_past_crash :
    (⟨⟨738946, .AfterMarket⟩, "X"⟩ : SourcedEarningsTime).datetime.last_session.1 < 738952 ∧
    best_earnings_guess 738952 [(⟨⟨738946, .AfterMarket⟩, "X"⟩ : SourcedEarningsTime)] =
      none := by decide

/-- C9: with the three observations of spec Scenarios A and B and any current
date on or before Thursday 2024-03-07, the reconciliation selects Thursday
2024-03-07 as `last_session`, places all of "X", "Y" and "Z" in
`concurrences`, and does not place "Z" in `close_disagreements`. -/
theorem c9_scenarios_ab (today : Int) (h : today ≤ 738952) :
    ∃ g, best_earnings_guess today [obsX, obsY, obsZ] = some g ∧
      g.last_session = 738952 ∧ obsX ∈ g.concurrences ∧ obsY ∈ g.concurrences ∧
      obsZ ∈ g.concurrences ∧ obsZ ∉ g.close_disagreements := by
  have hm : buildGuesses [obsX, obsY, obsZ] =
      [(738952, [(obsX, false), (obsY, false), (obsZ, true)]),
        (738953, [(obsZ, true)]), (738951, [(obsZ, true)])] := by decide
  have hbe : best_earnings_guess today [obsX, obsY, obsZ] =
      bucketize (buildGuesses [obsX, obsY, obsZ]) 738952 := by
    by_cases ht1 : today ≤ 738951
    · have hfold : (buildGuesses [obsX, obsY, obsZ]).foldl (selStepFuzzy today) (0, 1) =
          (3, 738952) := by
        rw [hm]
        simp only [List.foldl_cons, List.foldl_nil]
        rw [show selStepFuzzy today ((0 : Nat), (1 : Int))
            (738952, [(obsX, false), (obsY, false), (obsZ, true)]) = (3, 738952) from by
          unfold selStepFuzzy
          rw [if_neg (show ¬ (738952 : Int) < today by omega), if_pos (by decide)]
          decide]
        rw [show selStepFuzzy today ((3 : Nat), (738952 : Int))
            (738953, [(obsZ, true)]) = (3, 738952) from by
          unfold selStepFuzzy
          rw [if_neg (show ¬ (738953 : Int) < today by omega), if_neg (by decide)]]
        rw [show selStepFuzzy today ((3 : Nat), (738952 : Int))
            (738951, [(obsZ, true)]) = (3, 738952) from by
          unfold selStepFuzzy
          rw [if_neg (show ¬ (738951 : Int) < today by omega), if_neg (by decide)]]
      rw [best_earnings_guess_eq, hfold]
    · have ht2 : today = 738952 := by omega
      subst ht2
      decide
  refine ⟨⟨738952, [obsX, obsY, obsZ], [], []⟩, ?_, by decide, by decide, by decide,
    by decide, by decide⟩
  rw [hbe]
  decide

/-- Witness for C9 with the current date exactly 2024-03-07. -/
theorem c9_scenarios_ab_witness :
    ((738952 : Int) ≤ 738952) ∧
    (∃ g, best_earnings_guess 738952 [obsX, obsY, obsZ] = some g ∧
      g.last_session = 738952 ∧ obsX ∈ g.concurrences ∧ obsY ∈ g.concurrences ∧
      obsZ ∈ g.concurrences ∧ obsZ ∉ g.close_disagreements) :=
  ⟨by decide, c9_scenarios_ab 738952 (by decide)⟩

lemma dedupeBy_cons (keep : String → Bool) (acc : List SourcedEarningsTime)
    (e : SourcedEarningsTime × Bool) (rest : List (SourcedEarningsTime × Bool)) :
    dedupeBy keep acc (e :: rest) =
      dedupeBy keep
        (if keep e.1.source && (acc.find? (fun c => c.source == e.1.source)).isNone then
          acc ++ [e.1]
        else acc) rest := rfl

lemma dedupeBy_acc_sub (keep : String → Bool) (acc : List SourcedEarningsTime)
    (xs : List (SourcedEarningsTime × Bool)) (a : SourcedEarningsTime) (ha : a ∈ acc) :
    a ∈ dedupeBy keep acc xs := by
  induction xs generalizing acc with
  | nil => exact ha
  | cons e rest ih =>
    rw [dedupeBy_cons]
    apply ih
    split
    · exact List.mem_append_left _ ha
    · exact ha

lemma dedupeBy_sound (keep : String → Bool) (xs : List (SourcedEarningsTime × Bool))
    (acc : List SourcedEarningsTime) (a : SourcedEarningsTime)
    (ha : a ∈ dedupeBy keep acc xs) :
    a ∈ acc ∨ (keep a.source = true ∧ ∃ e ∈ xs, e.1 = a) := by
  induction xs generalizing acc with
  | nil => exact Or.inl ha
  | cons e rest ih =>
    rw [dedupeBy_cons] at ha
    rcases ih _ ha with hacc | ⟨hk, e1, he1, heq⟩
    · by_cases hc : keep e.1.source && (acc.find? (fun c => c.source == e.1.source)).isNone
      · rw [if_pos hc] at hacc
        rcases List.mem_append.mp hacc with h | h
        · exact Or.inl h
        · simp only [List.mem_singleton] at h
          subst h
          rw [Bool.and_eq_true] at hc
          exact Or.inr ⟨hc.1, e, List.mem_cons_self e rest, rfl⟩
      · rw [if_neg hc] at hacc
        exact Or.inl hacc
    · exact Or.inr ⟨hk, e1, List.mem_cons_of_mem e he1, heq⟩

lemma find?_source_isNone_iff (acc : List SourcedEarningsTime) (s : String) :
    (acc.find? (fun c => c.source == s)).isNone = true ↔ ∀ a ∈ acc, ¬ a.source = s := by
  rw [Option.isNone_iff_eq_none, List.find?_eq_none]
  simp

lemma dedupeBy_src_complete (keep : String → Bool) (xs : List (SourcedEarningsTime × Bool))
    (acc : List SourcedEarningsTime) (s : String)
    (h : (∃ a ∈ acc, a.source = s) ∨ (keep s = true ∧ ∃ e ∈ xs, e.1.source = s)) :
    ∃ a ∈ dedupeBy keep acc xs, a.source = s := by
  induction xs generalizing acc with
  | nil =>
    rcases h with ⟨a, ha, hs⟩ | ⟨_, e, he, _⟩
    · exact ⟨a, ha, hs⟩
    · simp at he
  | cons e rest ih =>
    rw [dedupeBy_cons]
    rcases h with ⟨a, ha, hs⟩ | ⟨hk, e1, he1, hs⟩
    · refine ih _ (Or.inl ⟨a, ?_, hs⟩)
      split
      · exact List.mem_append_left _ ha
      · exact ha
    · rcases List.mem_cons.mp he1 with rfl | hmem
      · by_cases hc : keep e1.1.source && (acc.find? (fun c => c.source == e1.1.source)).isNone
        · refine ih _ (Or.inl ⟨e1.1, ?_, hs⟩)
          rw [if_pos hc]
          exact List.mem_append_right _ (List.mem_singleton_self _)
        · rw [Bool.and_eq_true] at hc
          push_neg at hc
          have hkeep : keep e1.1.source = true := by
            rw [hs]
            exact hk
          have hfindne := hc hkeep
          have hsome : ¬ (acc.find? (fun c => c.source == e1.1.source)).isNone = true := hfindne
          rcases hacc : acc.find? (fun c => c.source == e1.1.source) with _ | c
          · exact absurd (by rw [hacc]; rfl) hsome
          · have hcmem := List.mem_of_find?_eq_some hacc
            have hcsrc : c.source = e1.1.source := by
              have := List.find?_some hacc
              simpa using this
            refine ih _ (Or.inl ⟨c, ?_, by rw [hcsrc, hs]⟩)
            split
            · exact List.mem_append_left _ hcmem
            · exact hcmem
      · exact ih _ (Or.inr ⟨hk, e1, hmem, hs⟩)

lemma best_guess_fields (today : Int) (l : List SourcedEarningsTime) (g : EarningsGuess)
    (hg : best_earnings_guess today l = some g) :
    ∃ bucket, findGuess (buildGuesses l) g.last_session = some bucket ∧
      g.concurrences = bucket.map Prod.fst ∧
      g.close_disagreements =
        dedupeBy (fun s => (g.concurrences.find? (fun c => c.source == s)).isNone) []
          (entriesAt (buildGuesses l) (prev_trading_day g.last_session) ++
            entriesAt (buildGuesses l) (next_trading_day g.last_session)) ∧
      g.far_disagreements =
        dedupeBy (fun s =>
            (g.concurrences.find? (fun c => c.source == s)).isNone &&
            (g.close_disagreements.find? (fun c => c.source == s)).isNone) []
          (((eraseGuess (eraseGuess (eraseGuess (buildGuesses l) g.last_session)
              (prev_trading_day g.last_session)) (next_trading_day g.last_session)).map
            (fun p => p.2)).flatten) := by
  rw [best_earnings_guess_eq] at hg
  generalize hb : ((buildGuesses l).foldl (selStepFuzzy today) (0, 1)).2 = b at hg
  unfold bucketize at hg
  cases hf : findGuess (buildGuesses l) b with
  | none =>
    rw [hf] at hg
    exact Option.noConfusion hg
  | some bucket =>
    rw [hf] at hg
    simp only [Option.some.injEq] at hg
    subst hg
    have hpb : ¬ prev_trading_day b = b := by
      have := prev_trading_day_lt b
      omega
    have hnb1 : ¬ next_trading_day b = b := by
      have := lt_next_trading_day b
      omega
    have hnb2 : ¬ next_trading_day b = prev_trading_day b := by
      have := lt_next_trading_day b
      have := prev_trading_day_lt b
      omega
    have hprev : (findGuess (eraseGuess (buildGuesses l) b) (prev_trading_day b)).getD [] =
        entriesAt (buildGuesses l) (prev_trading_day b) := by
      rw [findGuess_eraseGuess, if_neg hpb]
      rfl
    have hnext : (findGuess (eraseGuess (eraseGuess (buildGuesses l) b)
        (prev_trading_day b)) (next_trading_day b)).getD [] =
        entriesAt (buildGuesses l) (next_trading_day b) := by
      rw [findGuess_eraseGuess, if_neg hnb2, findGuess_eraseGuess, if_neg hnb1]
      rfl
    refine ⟨bucket, hf, rfl, ?_, rfl⟩
    rw [← hprev, ← hnext]

lemma close_not_in_conc (today : Int) (l : List SourcedEarningsTime) (g : EarningsGuess)
    (hg : best_earnings_guess today l = some g) :
    ∀ c ∈ g.close_disagreements, ∀ a ∈ g.concurrences, ¬ a.source = c.source := by
  obtain ⟨bucket, hf, hconc, hclose, hfar⟩ := best_guess_fields today l g hg
  intro c hc a ha
  rw [hclose] at hc
  rcases dedupeBy_sound _ _ _ _ hc with h0 | ⟨hk, _⟩
  · simp at h0
  · exact (find?_source_isNone_iff _ _).mp hk a ha

lemma far_not_in_conc_close (today : Int) (l : List SourcedEarningsTime) (g : EarningsGuess)
    (hg : best_earnings_guess today l = some g) :
    ∀ c ∈ g.far_disagreements,
      (∀ a ∈ g.concurrences, ¬ a.source = c.source) ∧
      (∀ a ∈ g.close_disagreements, ¬ a.source = c.source) := by
  obtain ⟨bucket, hf, hconc, hclose, hfar⟩ := best_guess_fields today l g hg
  intro c hc
  rw [hfar] at hc
  rcases dedupeBy_sound _ _ _ _ hc with h0 | ⟨hk, _⟩
  · simp at h0
  · rw [Bool.and_eq_true] at hk
    exact ⟨(find?_source_isNone_iff _ _).mp hk.1, (find?_source_isNone_iff _ _).mp hk.2⟩

/-- C2: on an input in which every source occurs at most once, the three
bucket lists of a successful reconciliation are pairwise disjoint by source,
and each input source appears in at most one of the three buckets. -/
theorem c2_bucket_disjointness (today : Int) (l : List SourcedEarningsTime)
    (hnd : (l.map (fun s => s.source)).Nodup) (g : EarningsGuess)
    (hg : best_earnings_guess today l = some g) :
    (∀ a ∈ g.concurrences, ∀ c ∈ g.close_disagreements, a.source ≠ c.source) ∧
    (∀ a ∈ g.concurrences, ∀ c ∈ g.far_disagreements, a.source ≠ c.source) ∧
    (∀ a ∈ g.close_disagreements, ∀ c ∈ g.far_disagreements, a.source ≠ c.source) ∧
    (∀ o ∈ l,
      (if g.concurrences.any (fun c => c.source == o.source) = true then 1 else 0) +
        (if g.close_disagreements.any (fun c => c.source == o.source) = true then 1 else 0) +
        (if g.far_disagreements.any (fun c => c.source == o.source) = true then 1 else 0) ≤
        1) := by
  have hCdis := close_not_in_conc today l g hg
  have hFdis := far_not_in_conc_close today l g hg
  refine ⟨?_, ?_, ?_, ?_⟩
  · intro a ha c hc
    exact hCdis c hc a ha
  · intro a ha c hc
    exact (hFdis c hc).1 a ha
  · intro a ha c hc
    exact (hFdis c hc).2 a ha
  · intro o ho
    by_cases h1 : g.concurrences.any (fun c => c.source == o.source) = true
    · obtain ⟨a, ha, hab⟩ := List.any_eq_true.mp h1
      rw [beq_iff_eq] at hab
      have h2 : ¬ g.close_disagreements.any (fun c => c.source == o.source) = true := by
        intro h2
        obtain ⟨c, hc, hcb⟩ := List.any_eq_true.mp h2
        rw [beq_iff_eq] at hcb
        exact hCdis c hc a ha (by rw [hab, hcb])
      have h3 : ¬ g.far_disagreements.any (fun c => c.source == o.source) = true := by
        intro h3
        obtain ⟨c, hc, hcb⟩ := List.any_eq_true.mp h3
        rw [beq_iff_eq] at hcb
        exact (hFdis c hc).1 a ha (by rw [hab, hcb])
      simp [h1, h2, h3]
    · by_cases h2 : g.close_disagreements.any (fun c => c.source == o.source) = true
      · obtain ⟨a, ha, hab⟩ := List.any_eq_true.mp h2
        rw [beq_iff_eq] at hab
        have h3 : ¬ g.far_disagreements.any (fun c => c.source == o.source) = true := by
          intro h3
          obtain ⟨c, hc, hcb⟩ := List.any_eq_true.mp h3
          rw [beq_iff_eq] at hcb
          exact (hFdis c hc).2 a ha (by rw [hab, hcb])
        simp [h1, h2, h3]
      · rw [if_neg h1, if_neg h2]
        split <;> omega

/-- Witness for C2 on the three-source scenario input at 2024-03-07. -/
theorem c2_bucket_disjointness_witness :
    (([obsX, obsY, obsZ].map (fun s => s.source)).Nodup ∧
      best_earnings_guess 738952 [obsX, obsY, obsZ] =
        some ⟨738952, [obsX, obsY, obsZ], [], []⟩) ∧
    ((∀ a ∈ (⟨738952, [obsX, obsY, obsZ], [], []⟩ : EarningsGuess).concurrences,
        ∀ c ∈ (⟨738952, [obsX, obsY, obsZ], [], []⟩ : EarningsGuess).close_disagreements,
          a.source ≠ c.source) ∧
      (∀ a ∈ (⟨738952, [obsX, obsY, obsZ], [], []⟩ : EarningsGuess).concurrences,
        ∀ c ∈ (⟨738952, [obsX, obsY, obsZ], [], []⟩ : EarningsGuess).far_disagreements,
          a.source ≠ c.source) ∧
      (∀ a ∈ (⟨738952, [obsX, obsY, obsZ], [], []⟩ : EarningsGuess).close_disagreements,
        ∀ c ∈ (⟨738952, [obsX, obsY, obsZ], [], []⟩ : EarningsGuess).far_disagreements,
          a.source ≠ c.source) ∧
      (∀ o ∈ [obsX, obsY, obsZ],
        (if (⟨738952, [obsX, obsY, obsZ], [], []⟩ : EarningsGuess).concurrences.any
            (fun c => c.source == o.source) = true then 1 else 0) +
          (if (⟨738952, [obsX, obsY, obsZ], [], []⟩ : EarningsGuess).close_disagreements.any
            (fun c => c.source == o.source) = true then 1 else 0) +
          (if (⟨738952, [obsX, obsY, obsZ], [], []⟩ : EarningsGuess).far_disagreements.any
            (fun c => c.source == o.source) = true then 1 else 0) ≤ 1)) :=
  ⟨⟨by decide, by decide⟩,
    c2_bucket_disjointness 738952 [obsX, obsY, obsZ] (by decide)
      ⟨738952, [obsX, obsY, obsZ], [], []⟩ (by decide)⟩

lemma source_inj (l : List SourcedEarningsTime) (hnd : (l.map (fun s => s.source)).Nodup)
    (a : SourcedEarningsTime) (ha : a ∈ l) (b : SourcedEarningsTime) (hb : b ∈ l)
    (hs : a.source = b.source) : a = b := by
  induction l with
  | nil => simp at ha
  | cons c rest ih =>
    simp only [List.map_cons, List.nodup_cons] at hnd
    rcases List.mem_cons.mp ha with rfl | ha1
    · rcases List.mem_cons.mp hb with rfl | hb1
      · rfl
      · exact absurd (by rw [hs]; exact List.mem_map_of_mem (fun s => s.source) hb1) hnd.1
    · rcases List.mem_cons.mp hb with rfl | hb1
      · exact absurd (by rw [← hs]; exact List.mem_map_of_mem (fun s => s.source) ha1) hnd.1
      · exact ih hnd.2 ha1 hb1

lemma entry_fst_mem (l : List SourcedEarningsTime) (d : Int) (e : SourcedEarningsTime × Bool)
    (he : e ∈ entriesAt (buildGuesses l) d) : e.1 ∈ l := by
  rw [entriesAt_buildGuesses] at he
  obtain ⟨o, ho, hoe⟩ := List.mem_bind.mp he
  rw [regEntryAt_fst o d e hoe]
  exact ho

lemma obs_entry_mem (l : List SourcedEarningsTime) (o : SourcedEarningsTime) (ho : o ∈ l) :
    (o, o.datetime.last_session.2) ∈
      entriesAt (buildGuesses l) o.datetime.last_session.1 := by
  rw [entriesAt_buildGuesses]
  refine List.mem_bind.mpr ⟨o, ho, ?_⟩
  rw [regEntryAt_eq, if_pos (session_mem_regKeys o)]
  simp

lemma mem_flatten_of_entriesAt (m : GuessMap) (d : Int) (e : SourcedEarningsTime × Bool)
    (he : e ∈ entriesAt m d) : e ∈ (m.map (fun p => p.2)).flatten := by
  rw [entriesAt] at he
  cases hf : findGuess m d with
  | none =>
    rw [hf] at he
    simp at he
  | some vs =>
    rw [hf] at he
    have hmem := findGuess_mem m d vs hf
    exact List.mem_flatten.mpr ⟨vs, List.mem_map_of_mem (fun p => p.2) hmem, he⟩

lemma entriesAt_erase3 (m : GuessMap) (b d : Int)
    (h1 : ¬ d = b) (h2 : ¬ d = prev_trading_day b) (h3 : ¬ d = next_trading_day b) :
    entriesAt (eraseGuess (eraseGuess (eraseGuess m b) (prev_trading_day b))
      (next_trading_day b)) d = entriesAt m d := by
  rw [entriesAt_eraseGuess, if_neg h3, entriesAt_eraseGuess, if_neg h2,
    entriesAt_eraseGuess, if_neg h1]

lemma best_guess_some (today : Int) (l : List SourcedEarningsTime)
    (hex : ∃ d0 ∈ candidateDates l, today ≤ d0) :
    ∃ g, best_earnings_guess today l = some g := by
  obtain ⟨d0, hd0mem, hd0to⟩ := hex
  have hnd := keys_nodup_buildGuesses l
  have hne := buckets_ne_buildGuesses l
  obtain ⟨p0, hp0m, hp0⟩ := List.mem_map.mp hd0mem
  rcases selFoldFuzzy_mem today (buildGuesses l) (0, 1) with heq | ⟨e, hem, hel, hre⟩
  · exfalso
    have hlt : ¬ p0.1 < today := by
      rw [hp0]
      omega
    have hnb := selFoldFuzzy_ub today (buildGuesses l) (0, 1) p0 hp0m hlt
    rw [heq] at hnb
    exact hnb (Or.inl (List.length_pos.mpr (hne p0 hp0m)))
  · have hfind : findGuess (buildGuesses l) e.1 = some e.2 :=
      mem_findGuess _ e.1 e.2 hnd (by cases e; exact hem)
    obtain ⟨g, hg, _⟩ := bucketize_some (buildGuesses l) e.1 e.2 hfind
    refine ⟨g, ?_⟩
    rw [best_earnings_guess_eq, hre]
    exact hg

/-- C10: when the input has pairwise-distinct sources and some registered
candidate date lies on or after the current date, the reconciliation succeeds
and every input source lands in exactly one of the three buckets: the
on-or-after-today restriction only affects the selection of `last_session`,
never the bucketing, so observations whose sessions lie strictly in the past
are still bucketed. -/
theorem c10_every_source_bucketed (today : Int) (l : List SourcedEarningsTime)
    (hnd : (l.map (fun s => s.source)).Nodup)
    (hex : ∃ d0 ∈ candidateDates l, today ≤ d0) :
    ∃ g, best_earnings_guess today l = some g ∧
      ∀ o ∈ l,
        (if g.concurrences.any (fun c => c.source == o.source) = true then 1 else 0) +
          (if g.close_disagreements.any (fun c => c.source == o.source) = true then 1 else 0) +
          (if g.far_disagreements.any (fun c => c.source == o.source) = true then 1 else 0) =
          1 := by
  obtain ⟨g, hg⟩ := best_guess_some today l hex
  refine ⟨g, hg, ?_⟩
  obtain ⟨bucket, hf, hconc, hclose, hfar⟩ := best_guess_fields today l g hg
  have hCdis := close_not_in_conc today l g hg
  have hFdis := far_not_in_conc_close today l g hg
  intro o ho
  have hbucket : entriesAt (buildGuesses l) g.last_session = bucket := by
    rw [entriesAt, hf]
    rfl
  have hatleast :
      g.concurrences.any (fun c => c.source == o.source) = true ∨
      g.close_disagreements.any (fun c => c.source == o.source) = true ∨
      g.far_disagreements.any (fun c => c.source == o.source) = true := by
    by_cases hA : ∃ e ∈ bucket, e.1.source = o.source
    · left
      obtain ⟨e, he, hes⟩ := hA
      refine List.any_eq_true.mpr ⟨e.1, ?_, by rw [beq_iff_eq]; exact hes⟩
      rw [hconc]
      exact List.mem_map_of_mem Prod.fst he
    · have hkc : (g.concurrences.find? (fun c => c.source == o.source)).isNone = true := by
        rw [find?_source_isNone_iff]
        intro a ha has
        rw [hconc] at ha
        obtain ⟨e, he, rfl⟩ := List.mem_map.mp ha
        exact hA ⟨e, he, has⟩
      by_cases hB : ∃ e ∈ entriesAt (buildGuesses l) (prev_trading_day g.last_session) ++
          entriesAt (buildGuesses l) (next_trading_day g.last_session),
          e.1.source = o.source
      · right
        left
        obtain ⟨e, he, hes⟩ := hB
        have hcompl := dedupeBy_src_complete
          (fun s => (g.concurrences.find? (fun c => c.source == s)).isNone)
          (entriesAt (buildGuesses l) (prev_trading_day g.last_session) ++
            entriesAt (buildGuesses l) (next_trading_day g.last_session)) [] o.source
          (Or.inr ⟨hkc, e, he, hes⟩)
        rw [← hclose] at hcompl
        obtain ⟨a, ha, has⟩ := hcompl
        exact List.any_eq_true.mpr ⟨a, ha, by rw [beq_iff_eq]; exact has⟩
      · right
        right
        have hkcl : (g.close_disagreements.find?
            (fun c => c.source == o.source)).isNone = true := by
          rw [find?_source_isNone_iff]
          intro a ha has
          rw [hclose] at ha
          rcases dedupeBy_sound _ _ _ _ ha with h0 | ⟨_, e, he, heq⟩
          · simp at h0
          · refine hB ⟨e, he, ?_⟩
            rw [heq]
            exact has
        have hkF : ((g.concurrences.find? (fun c => c.source == o.source)).isNone &&
            (g.close_disagreements.find? (fun c => c.source == o.source)).isNone) = true := by
          rw [Bool.and_eq_true]
          exact ⟨hkc, hkcl⟩
        have hsess := obs_entry_mem l o ho
        have hs1 : ¬ o.datetime.last_session.1 = g.last_session := by
          intro hh
          rw [hh, hbucket] at hsess
          exact hA ⟨(o, o.datetime.last_session.2), hsess, rfl⟩
        have hs2 : ¬ o.datetime.last_session.1 = prev_trading_day g.last_session := by
          intro hh
          refine hB ⟨(o, o.datetime.last_session.2), List.mem_append_left _ ?_, rfl⟩
          rw [← hh]
          exact hsess
        have hs3 : ¬ o.datetime.last_session.1 = next_trading_day g.last_session := by
          intro hh
          refine hB ⟨(o, o.datetime.last_session.2), List.mem_append_right _ ?_, rfl⟩
          rw [← hh]
          exact hsess
        have hrem : (o, o.datetime.last_session.2) ∈
            entriesAt (eraseGuess (eraseGuess (eraseGuess (buildGuesses l) g.last_session)
              (prev_trading_day g.last_session)) (next_trading_day g.last_session))
              o.datetime.last_session.1 := by
          rw [entriesAt_erase3 _ _ _ hs1 hs2 hs3]
          exact hsess
        have hflat := mem_flatten_of_entriesAt _ _ _ hrem
        have hcompl := dedupeBy_src_complete
          (fun s => (g.concurrences.find? (fun c => c.source == s)).isNone &&
            (g.close_disagreements.find? (fun c => c.source == s)).isNone)
          (((eraseGuess (eraseGuess (eraseGuess (buildGuesses l) g.last_session)
              (prev_trading_day g.last_session)) (next_trading_day g.last_session)).map
            (fun p => p.2)).flatten) [] o.source
          (Or.inr ⟨hkF, (o, o.datetime.last_session.2), hflat, rfl⟩)
        rw [← hfar] at hcompl
        obtain ⟨a, ha, has⟩ := hcompl
        exact List.any_eq_true.mpr ⟨a, ha, by rw [beq_iff_eq]; exact has⟩
  by_cases h1 : g.concurrences.any (fun c => c.source == o.source) = true
  · obtain ⟨a, ha, hab⟩ := List.any_eq_true.mp h1
    rw [beq_iff_eq] at hab
    have h2 : ¬ g.close_disagreements.any (fun c => c.source == o.source) = true := by
      intro h2
      obtain ⟨c, hc, hcb⟩ := List.any_eq_true.mp h2
      rw [beq_iff_eq] at hcb
      exact hCdis c hc a ha (by rw [hab, hcb])
    have h3 : ¬ g.far_disagreements.any (fun c => c.source == o.source) = true := by
      intro h3
      obtain ⟨c, hc, hcb⟩ := List.any_eq_true.mp h3
      rw [beq_iff_eq] at hcb
      exact (hFdis c hc).1 a ha (by rw [hab, hcb])
    rw [if_pos h1, if_neg h2, if_neg h3]
  · by_cases h2 : g.close_disagreements.any (fun c => c.source == o.source) = true
    · obtain ⟨a, ha, hab⟩ := List.any_eq_true.mp h2
      rw [beq_iff_eq] at hab
      have h3 : ¬ g.far_disagreements.any (fun c => c.source == o.source) = true := by
        intro h3
        obtain ⟨c, hc, hcb⟩ := List.any_eq_true.mp h3
        rw [beq_iff_eq] at hcb
        exact (hFdis c hc).2 a ha (by rw [hab, hcb])
      rw [if_neg h1, if_pos h2, if_neg h3]
    · rcases hatleast with h | h | h
      · exact absurd h h1
      · exact absurd h h2
      · rw [if_neg h1, if_neg h2, if_pos h]

/-- Witness for C10 on the three-source scenario input at 2024-03-07. -/
theorem c10_every_source_bucketed_witness :
    (([obsX, obsY, obsZ].map (fun s => s.source)).Nodup ∧
      ∃ d0 ∈ candidateDates [obsX, obsY, obsZ], (738952 : Int) ≤ d0) ∧
    (∃ g, best_earnings_guess 738952 [obsX, obsY, obsZ] = some g ∧
      ∀ o ∈ [obsX, obsY, obsZ],
        (if g.concurrences.any (fun c => c.source == o.source) = true then 1 else 0) +
          (if g.close_disagreements.any (fun c => c.source == o.source) = true then 1 else 0) +
          (if g.far_disagreements.any (fun c => c.source == o.source) = true then 1 else 0) =
          1) :=
  ⟨⟨by decide, by decide⟩,
    c10_every_source_bucketed 738952 [obsX, obsY, obsZ] (by decide) (by decide)⟩

lemma selFoldFuzzy_skip (today : Int) (m : GuessMap) (st : Nat × Int)
    (h : ∀ e ∈ m, e.1 < today) : m.foldl (selStepFuzzy today) st = st := by
  induction m generalizing st with
  | nil => rfl
  | cons e rest ih =>
    simp only [List.foldl_cons]
    rw [show selStepFuzzy today st e = st from by
      unfold selStepFuzzy
      rw [if_pos (h e (List.mem_cons_self e rest))]]
    exact ih _ (fun x hx => h x (List.mem_cons_of_mem e hx))

lemma entriesAt_perm (l l2 : List SourcedEarningsTime) (hp : l.Perm l2) (d : Int) :
    (entriesAt (buildGuesses l) d).Perm (entriesAt (buildGuesses l2) d) := by
  rw [entriesAt_buildGuesses, entriesAt_buildGuesses]
  exact hp.bind_right _

lemma sel_ub_entries (today : Int) (l : List SourcedEarningsTime) (d : Int)
    (hd : ¬ d < today) (hne : entriesAt (buildGuesses l) d ≠ []) :
    ¬ selBeats (entriesAt (buildGuesses l) d).length d
      ((buildGuesses l).foldl (selStepFuzzy today) (0, 1)).1
      ((buildGuesses l).foldl (selStepFuzzy today) (0, 1)).2 := by
  cases hf : findGuess (buildGuesses l) d with
  | none =>
    exfalso
    exact hne ((findGuess_none_iff (buildGuesses l) (buckets_ne_buildGuesses l) d).mp hf)
  | some vs =>
    have hmem := findGuess_mem (buildGuesses l) d vs hf
    have hea : entriesAt (buildGuesses l) d = vs := by
      rw [entriesAt, hf]
      rfl
    rw [hea]
    exact selFoldFuzzy_ub today (buildGuesses l) (0, 1) (d, vs) hmem hd

lemma sel_entry_of_ex (today : Int) (l : List SourcedEarningsTime)
    (hex : ∃ d, today ≤ d ∧ entriesAt (buildGuesses l) d ≠ []) :
    ¬ ((buildGuesses l).foldl (selStepFuzzy today) (0, 1)).2 < today ∧
    entriesAt (buildGuesses l)
      ((buildGuesses l).foldl (selStepFuzzy today) (0, 1)).2 ≠ [] ∧
    ((buildGuesses l).foldl (selStepFuzzy today) (0, 1)).1 =
      (entriesAt (buildGuesses l)
        ((buildGuesses l).foldl (selStepFuzzy today) (0, 1)).2).length := by
  obtain ⟨d0, hd0, hne0⟩ := hex
  rcases selFoldFuzzy_mem today (buildGuesses l) (0, 1) with heq | ⟨e, hem, hel, hre⟩
  · exfalso
    have hub := sel_ub_entries today l d0 (by omega) hne0
    rw [heq] at hub
    exact hub (Or.inl (List.length_pos.mpr hne0))
  · have hea : entriesAt (buildGuesses l) e.1 = e.2 :=
      entriesAt_of_mem (buildGuesses l) e.1 e.2 (keys_nodup_buildGuesses l)
        (by cases e; exact hem)
    rw [hre]
    refine ⟨hel, ?_, ?_⟩
    · rw [hea]
      exact buckets_ne_buildGuesses l e hem
    · rw [hea]

lemma sel_eq_of_perm (today : Int) (l l2 : List SourcedEarningsTime) (hp : l.Perm l2) :
    (buildGuesses l).foldl (selStepFuzzy today) (0, 1) =
      (buildGuesses l2).foldl (selStepFuzzy today) (0, 1) := by
  by_cases hex : ∃ d, today ≤ d ∧ entriesAt (buildGuesses l) d ≠ []
  · have hex2 : ∃ d, today ≤ d ∧ entriesAt (buildGuesses l2) d ≠ [] := by
      obtain ⟨d0, hd0, hne0⟩ := hex
      refine ⟨d0, hd0, ?_⟩
      intro hnil
      rw [← List.length_eq_zero] at hnil
      rw [← (entriesAt_perm l l2 hp d0).length_eq, List.length_eq_zero] at hnil
      exact hne0 hnil
    obtain ⟨he1, hne1, hc1⟩ := sel_entry_of_ex today l hex
    obtain ⟨he2, hne2, hc2⟩ := sel_entry_of_ex today l2 hex2
    have hub12 : ¬ selBeats ((buildGuesses l2).foldl (selStepFuzzy today) (0, 1)).1
        ((buildGuesses l2).foldl (selStepFuzzy today) (0, 1)).2
        ((buildGuesses l).foldl (selStepFuzzy today) (0, 1)).1
        ((buildGuesses l).foldl (selStepFuzzy today) (0, 1)).2 := by
      have hperm := entriesAt_perm l l2 hp
        ((buildGuesses l2).foldl (selStepFuzzy today) (0, 1)).2
      have hne : entriesAt (buildGuesses l)
          ((buildGuesses l2).foldl (selStepFuzzy today) (0, 1)).2 ≠ [] := by
        intro hnil
        rw [← List.length_eq_zero] at hnil
        rw [hperm.length_eq, List.length_eq_zero] at hnil
        exact hne2 hnil
      have := sel_ub_entries today l
        ((buildGuesses l2).foldl (selStepFuzzy today) (0, 1)).2 he2 hne
      rw [hperm.length_eq, ← hc2] at this
      exact this
    have hub21 : ¬ selBeats ((buildGuesses l).foldl (selStepFuzzy today) (0, 1)).1
        ((buildGuesses l).foldl (selStepFuzzy today) (0, 1)).2
        ((buildGuesses l2).foldl (selStepFuzzy today) (0, 1)).1
        ((buildGuesses l2).foldl (selStepFuzzy today) (0, 1)).2 := by
      have hperm := (entriesAt_perm l l2 hp
        ((buildGuesses l).foldl (selStepFuzzy today) (0, 1)).2).symm
      have hne : entriesAt (buildGuesses l2)
          ((buildGuesses l).foldl (selStepFuzzy today) (0, 1)).2 ≠ [] := by
        intro hnil
        rw [← List.length_eq_zero] at hnil
        rw [hperm.length_eq, List.length_eq_zero] at hnil
        exact hne1 hnil
      have := sel_ub_entries today l2
        ((buildGuesses l).foldl (selStepFuzzy today) (0, 1)).2 he1 hne
      rw [hperm.length_eq, ← hc1] at this
      exact this
    rw [Prod.ext_iff]
    unfold selBeats at hub12 hub21
    omega
  · have hex2 : ¬ ∃ d, today ≤ d ∧ entriesAt (buildGuesses l2) d ≠ [] := by
      intro hex2
      obtain ⟨d0, hd0, hne0⟩ := hex2
      refine hex ⟨d0, hd0, ?_⟩
      intro hnil
      rw [← List.length_eq_zero] at hnil
      rw [(entriesAt_perm l l2 hp d0).length_eq, List.length_eq_zero] at hnil
      exact hne0 hnil
    push_neg at hex hex2
    have hs1 : ∀ e ∈ buildGuesses l, e.1 < today := by
      intro e hem
      by_contra hlt
      have hea : entriesAt (buildGuesses l) e.1 = e.2 :=
        entriesAt_of_mem (buildGuesses l) e.1 e.2 (keys_nodup_buildGuesses l)
          (by cases e; exact hem)
      have hnil := hex e.1 (by omega)
      rw [hea] at hnil
      exact buckets_ne_buildGuesses l e hem hnil
    have hs2 : ∀ e ∈ buildGuesses l2, e.1 < today := by
      intro e hem
      by_contra hlt
      have hea : entriesAt (buildGuesses l2) e.1 = e.2 :=
        entriesAt_of_mem (buildGuesses l2) e.1 e.2 (keys_nodup_buildGuesses l2)
          (by cases e; exact hem)
      have hnil := hex2 e.1 (by omega)
      rw [hea] at hnil
      exact buckets_ne_buildGuesses l2 e hem hnil
    rw [selFoldFuzzy_skip today _ _ hs1, selFoldFuzzy_skip today _ _ hs2]

lemma keys_nodup_eraseGuess (m : GuessMap) (k : Int)
    (h : (m.map Prod.fst).Nodup) : ((eraseGuess m k).map Prod.fst).Nodup := by
  exact h.sublist ((List.filter_sublist m).map Prod.fst)

lemma mem_conc_iff (today : Int) (l : List SourcedEarningsTime) (g : EarningsGuess)
    (hg : best_earnings_guess today l = some g) (a : SourcedEarningsTime) :
    a ∈ g.concurrences ↔
      ∃ e ∈ entriesAt (buildGuesses l) g.last_session, e.1 = a := by
  obtain ⟨bucket, hf, hconc, _, _⟩ := best_guess_fields today l g hg
  have hbucket : entriesAt (buildGuesses l) g.last_session = bucket := by
    rw [entriesAt, hf]
    rfl
  rw [hconc, hbucket]
  constructor
  · intro ha
    obtain ⟨e, he, rfl⟩ := List.mem_map.mp ha
    exact ⟨e, he, rfl⟩
  · rintro ⟨e, he, rfl⟩
    exact List.mem_map_of_mem Prod.fst he

lemma mem_close_iff (today : Int) (l : List SourcedEarningsTime)
    (hnd : (l.map (fun s => s.source)).Nodup) (g : EarningsGuess)
    (hg : best_earnings_guess today l = some g) (a : SourcedEarningsTime) :
    a ∈ g.close_disagreements ↔
      ((∀ e ∈ entriesAt (buildGuesses l) g.last_session, ¬ e.1.source = a.source) ∧
        ∃ e ∈ entriesAt (buildGuesses l) (prev_trading_day g.last_session) ++
          entriesAt (buildGuesses l) (next_trading_day g.last_session), e.1 = a) := by
  obtain ⟨bucket, hf, hconc, hclose, _⟩ := best_guess_fields today l g hg
  have hbucket : entriesAt (buildGuesses l) g.last_session = bucket := by
    rw [entriesAt, hf]
    rfl
  have hmeml : ∀ e ∈ entriesAt (buildGuesses l) (prev_trading_day g.last_session) ++
      entriesAt (buildGuesses l) (next_trading_day g.last_session), e.1 ∈ l := by
    intro e he
    rcases List.mem_append.mp he with h | h
    · exact entry_fst_mem l _ e h
    · exact entry_fst_mem l _ e h
  constructor
  · intro ha
    rw [hclose] at ha
    rcases dedupeBy_sound _ _ _ _ ha with h0 | ⟨hk, e, he, heq⟩
    · simp at h0
    · have hnc := (find?_source_isNone_iff _ _).mp hk
      refine ⟨?_, e, he, heq⟩
      intro e1 he1 hs1
      refine hnc e1.1 ?_ hs1
      rw [hconc]
      rw [hbucket] at he1
      exact List.mem_map_of_mem Prod.fst he1
  · rintro ⟨hnoc, e, he, rfl⟩
    have hk : (g.concurrences.find? (fun c => c.source == e.1.source)).isNone = true := by
      rw [find?_source_isNone_iff]
      intro x hx
      rw [hconc] at hx
      obtain ⟨e1, he1, rfl⟩ := List.mem_map.mp hx
      refine hnoc e1 ?_
      rw [hbucket]
      exact he1
    have hcompl := dedupeBy_src_complete
      (fun s => (g.concurrences.find? (fun c => c.source == s)).isNone)
      (entriesAt (buildGuesses l) (prev_trading_day g.last_session) ++
        entriesAt (buildGuesses l) (next_trading_day g.last_session)) [] e.1.source
      (Or.inr ⟨hk, e, he, rfl⟩)
    rw [← hclose] at hcompl
    obtain ⟨c, hc, hcs⟩ := hcompl
    have hceq : c = e.1 := by
      have hcl := hc
      rw [hclose] at hcl
      rcases dedupeBy_sound _ _ _ _ hcl with h0 | ⟨_, e2, he2, heq2⟩
      · simp at h0
      · refine source_inj l hnd c ?_ e.1 (hmeml e he) hcs
        rw [← heq2]
        exact hmeml e2 he2
    rw [← hceq]
    exact hc

lemma mem_far_iff (today : Int) (l : List SourcedEarningsTime)
    (hnd : (l.map (fun s => s.source)).Nodup) (g : EarningsGuess)
    (hg : best_earnings_guess today l = some g) (a : SourcedEarningsTime) :
    a ∈ g.far_disagreements ↔
      ((∀ e ∈ entriesAt (buildGuesses l) g.last_session, ¬ e.1.source = a.source) ∧
        (∀ e ∈ entriesAt (buildGuesses l) (prev_trading_day g.last_session) ++
          entriesAt (buildGuesses l) (next_trading_day g.last_session),
          ¬ e.1.source = a.source) ∧
        ∃ d, ¬ d = g.last_session ∧ ¬ d = prev_trading_day g.last_session ∧
          ¬ d = next_trading_day g.last_session ∧
          ∃ e ∈ entriesAt (buildGuesses l) d, e.1 = a) := by
  obtain ⟨bucket, hf, hconc, hclose, hfar⟩ := best_guess_fields today l g hg
  have hbucket : entriesAt (buildGuesses l) g.last_session = bucket := by
    rw [entriesAt, hf]
    rfl
  have hg3nd : ((eraseGuess (eraseGuess (eraseGuess (buildGuesses l) g.last_session)
      (prev_trading_day g.last_session)) (next_trading_day g.last_session)).map
      Prod.fst).Nodup :=
    keys_nodup_eraseGuess _ _ (keys_nodup_eraseGuess _ _
      (keys_nodup_eraseGuess _ _ (keys_nodup_buildGuesses l)))
  have hflatiff : ∀ e : SourcedEarningsTime × Bool,
      e ∈ (((eraseGuess (eraseGuess (eraseGuess (buildGuesses l) g.last_session)
          (prev_trading_day g.last_session)) (next_trading_day g.last_session)).map
        (fun p => p.2)).flatten) ↔
      ∃ d, ¬ d = g.last_session ∧ ¬ d = prev_trading_day g.last_session ∧
        ¬ d = next_trading_day g.last_session ∧ e ∈ entriesAt (buildGuesses l) d := by
    intro e
    constructor
    · intro he
      obtain ⟨vs, hvs, hev⟩ := List.mem_flatten.mp he
      obtain ⟨p, hpm, rfl⟩ := List.mem_map.mp hvs
      have hea : entriesAt (eraseGuess (eraseGuess (eraseGuess (buildGuesses l)
          g.last_session) (prev_trading_day g.last_session))
          (next_trading_day g.last_session)) p.1 = p.2 :=
        entriesAt_of_mem _ p.1 p.2 hg3nd (by cases p; exact hpm)
      have h3 : ¬ p.1 = next_trading_day g.last_session := by
        intro hh
        rw [hh, entriesAt_eraseGuess, if_pos rfl] at hea
        rw [← hea] at hev
        simp at hev
      have h2 : ¬ p.1 = prev_trading_day g.last_session := by
        intro hh
        rw [hh, entriesAt_eraseGuess, if_neg (by
            have := prev_trading_day_lt g.last_session
            have := lt_next_trading_day g.last_session
            omega),
          entriesAt_eraseGuess, if_pos rfl] at hea
        rw [← hea] at hev
        simp at hev
      have h1 : ¬ p.1 = g.last_session := by
        intro hh
        rw [hh, entriesAt_eraseGuess, if_neg (by
            have := lt_next_trading_day g.last_session
            omega),
          entriesAt_eraseGuess, if_neg (by
            have := prev_trading_day_lt g.last_session
            omega),
          entriesAt_eraseGuess, if_pos rfl] at hea
        rw [← hea] at hev
        simp at hev
      refine ⟨p.1, h1, h2, h3, ?_⟩
      rw [← entriesAt_erase3 _ _ _ h1 h2 h3, hea]
      exact hev
    · rintro ⟨d, h1, h2, h3, he⟩
      refine mem_flatten_of_entriesAt _ d e ?_
      rw [entriesAt_erase3 _ _ _ h1 h2 h3]
      exact he
  constructor
  · intro ha
    rw [hfar] at ha
    rcases dedupeBy_sound _ _ _ _ ha with h0 | ⟨hk, e, he, heq⟩
    · simp at h0
    · rw [Bool.and_eq_true] at hk
      have hnc := (find?_source_isNone_iff _ _).mp hk.1
      have hncl := (find?_source_isNone_iff _ _).mp hk.2
      have hfst : ∀ e1 ∈ entriesAt (buildGuesses l) g.last_session,
          ¬ e1.1.source = a.source := by
        intro e1 he1 hs1
        refine hnc e1.1 ?_ hs1
        rw [hconc]
        rw [hbucket] at he1
        exact List.mem_map_of_mem Prod.fst he1
      refine ⟨hfst, ?_, ?_⟩
      · intro e1 he1 hs1
        have hkc : (g.concurrences.find? (fun c => c.source == e1.1.source)).isNone =
            true := by
          rw [find?_source_isNone_iff]
          intro x hx hxs
          rw [hconc] at hx
          obtain ⟨e2, he2, rfl⟩ := List.mem_map.mp hx
          exact hfst e2 (by rw [hbucket]; exact he2) (by rw [hxs, hs1])
        have hcompl := dedupeBy_src_complete
          (fun s => (g.concurrences.find? (fun c => c.source == s)).isNone)
          (entriesAt (buildGuesses l) (prev_trading_day g.last_session) ++
            entriesAt (buildGuesses l) (next_trading_day g.last_session)) []
          e1.1.source (Or.inr ⟨hkc, e1, he1, rfl⟩)
        rw [← hclose] at hcompl
        obtain ⟨c, hc, hcs⟩ := hcompl
        exact hncl c hc (by rw [hcs, hs1])
      · obtain ⟨d, h1, h2, h3, hem⟩ := (hflatiff e).mp he
        exact ⟨d, h1, h2, h3, e, hem, heq⟩
  · rintro ⟨hnoc, hnopn, d, h1, h2, h3, e, he, rfl⟩
    have hkc : (g.concurrences.find? (fun c => c.source == e.1.source)).isNone = true := by
      rw [find?_source_isNone_iff]
      intro x hx
      rw [hconc] at hx
      obtain ⟨e1, he1, rfl⟩ := List.mem_map.mp hx
      exact hnoc e1 (by rw [hbucket]; exact he1)
    have hkcl : (g.close_disagreements.find? (fun c => c.source == e.1.source)).isNone =
        true := by
      rw [find?_source_isNone_iff]
      intro x hx hxs
      have hxc := hx
      rw [hclose] at hxc
      rcases dedupeBy_sound _ _ _ _ hxc with h0 | ⟨_, e2, he2, heq2⟩
      · simp at h0
      · exact hnopn e2 he2 (by rw [heq2]; exact hxs)
    have hkF : ((g.concurrences.find? (fun c => c.source == e.1.source)).isNone &&
        (g.close_disagreements.find? (fun c => c.source == e.1.source)).isNone) = true := by
      rw [Bool.and_eq_true]
      exact ⟨hkc, hkcl⟩
    have hflat : e ∈ (((eraseGuess (eraseGuess (eraseGuess (buildGuesses l)
        g.last_session) (prev_trading_day g.last_session))
        (next_trading_day g.last_session)).map (fun p => p.2)).flatten) :=
      (hflatiff e).mpr ⟨d, h1, h2, h3, he⟩
    have hcompl := dedupeBy_src_complete
      (fun s => (g.concurrences.find? (fun c => c.source == s)).isNone &&
        (g.close_disagreements.find? (fun c => c.source == s)).isNone)
      (((eraseGuess (eraseGuess (eraseGuess (buildGuesses l) g.last_session)
          (prev_trading_day g.last_session)) (next_trading_day g.last_session)).map
        (fun p => p.2)).flatten) [] e.1.source (Or.inr ⟨hkF, e, hflat, rfl⟩)
    rw [← hfar] at hcompl
    obtain ⟨c, hc, hcs⟩ := hcompl
    have hceq : c = e.1 := by
      have hcf := hc
      rw [hfar] at hcf
      rcases dedupeBy_sound _ _ _ _ hcf with h0 | ⟨_, e2, he2, heq2⟩
      · simp at h0
      · obtain ⟨d2, hd1, hd2, hd3, he2m⟩ := (hflatiff e2).mp he2
        refine source_inj l hnd c ?_ e.1 (entry_fst_mem l d e he) hcs
        rw [← heq2]
        exact entry_fst_mem l d2 e2 he2m
    rw [← hceq]
    exact hc

lemma perm_exists_fst (xs ys : List (SourcedEarningsTime × Bool)) (hp : xs.Perm ys)
    (a : SourcedEarningsTime) : (∃ e ∈ xs, e.1 = a) ↔ ∃ e ∈ ys, e.1 = a := by
  constructor
  · rintro ⟨e, he, rfl⟩
    exact ⟨e, hp.mem_iff.mp he, rfl⟩
  · rintro ⟨e, he, rfl⟩
    exact ⟨e, hp.mem_iff.mpr he, rfl⟩

lemma perm_forall_src (xs ys : List (SourcedEarningsTime × Bool)) (hp : xs.Perm ys)
    (s : String) : (∀ e ∈ xs, ¬ e.1.source = s) ↔ ∀ e ∈ ys, ¬ e.1.source = s := by
  constructor
  · intro h e he
    exact h e (hp.mem_iff.mpr he)
  · intro h e he
    exact h e (hp.mem_iff.mp he)

/-- C7: permuting an input whose sources are pairwise distinct changes neither
the outcome kind (the crash case is reached for exactly the same inputs), nor
`last_session`, nor the three buckets viewed as sets of observations. -/
theorem c7_permutation_invariance (today : Int) (l l2 : List SourcedEarningsTime)
    (hp : l.Perm l2) (hnd : (l.map (fun s => s.source)).Nodup) :
    (best_earnings_guess today l = none ∧ best_earnings_guess today l2 = none) ∨
    (∃ g g2, best_earnings_guess today l = some g ∧
      best_earnings_guess today l2 = some g2 ∧ g.last_session = g2.last_session ∧
      (∀ a, a ∈ g.concurrences ↔ a ∈ g2.concurrences) ∧
      (∀ a, a ∈ g.close_disagreements ↔ a ∈ g2.close_disagreements) ∧
      (∀ a, a ∈ g.far_disagreements ↔ a ∈ g2.far_disagreements)) := by
  have hnd2 : (l2.map (fun s => s.source)).Nodup := ((hp.map _).nodup_iff).mp hnd
  have hsel := sel_eq_of_perm today l l2 hp
  have hbeg1 : best_earnings_guess today l =
      bucketize (buildGuesses l) (((buildGuesses l).foldl (selStepFuzzy today) (0, 1)).2) :=
    best_earnings_guess_eq today l
  have hbeg2 : best_earnings_guess today l2 =
      bucketize (buildGuesses l2)
        (((buildGuesses l).foldl (selStepFuzzy today) (0, 1)).2) := by
    rw [best_earnings_guess_eq, ← hsel]
  generalize hB : (((buildGuesses l).foldl (selStepFuzzy today) (0, 1)).2) = b
    at hbeg1 hbeg2
  cases hf : findGuess (buildGuesses l) b with
  | none =>
    left
    have hnil : entriesAt (buildGuesses l) b = [] :=
      (findGuess_none_iff _ (buckets_ne_buildGuesses l) b).mp hf
    have hnil2 : entriesAt (buildGuesses l2) b = [] := by
      have hperm := entriesAt_perm l l2 hp b
      rw [hnil] at hperm
      exact hperm.symm.eq_nil
    have hf2 : findGuess (buildGuesses l2) b = none :=
      (findGuess_none_iff _ (buckets_ne_buildGuesses l2) b).mpr hnil2
    constructor
    · rw [hbeg1]
      unfold bucketize
      rw [hf]
    · rw [hbeg2]
      unfold bucketize
      rw [hf2]
  | some bucket =>
    right
    obtain ⟨g1, hg1b, hl1⟩ := bucketize_some _ _ bucket hf
    have hg1 : best_earnings_guess today l = some g1 := by
      rw [hbeg1]
      exact hg1b
    have hne2 : entriesAt (buildGuesses l2) b ≠ [] := by
      have hne1 : entriesAt (buildGuesses l) b ≠ [] := by
        intro hnil
        have hcontra := (findGuess_none_iff _ (buckets_ne_buildGuesses l) b).mpr hnil
        rw [hcontra] at hf
        exact Option.noConfusion hf
      intro hnil
      have hperm := entriesAt_perm l l2 hp b
      rw [hnil] at hperm
      exact hne1 hperm.eq_nil
    cases hf2 : findGuess (buildGuesses l2) b with
    | none =>
      exact absurd ((findGuess_none_iff _ (buckets_ne_buildGuesses l2) b).mp hf2) hne2
    | some bucket2 =>
      obtain ⟨g2, hg2b, hl2⟩ := bucketize_some _ _ bucket2 hf2
      have hg2 : best_earnings_guess today l2 = some g2 := by
        rw [hbeg2]
        exact hg2b
      have hll : g1.last_session = g2.last_session := by
        rw [hl1, hl2]
      refine ⟨g1, g2, hg1, hg2, hll, ?_, ?_, ?_⟩
      · intro a
        rw [mem_conc_iff today l g1 hg1 a, mem_conc_iff today l2 g2 hg2 a, hll]
        exact perm_exists_fst _ _ (entriesAt_perm l l2 hp _) a
      · intro a
        rw [mem_close_iff today l hnd g1 hg1 a, mem_close_iff today l2 hnd2 g2 hg2 a, hll]
        exact and_congr (perm_forall_src _ _ (entriesAt_perm l l2 hp _) a.source)
          (perm_exists_fst _ _
            ((entriesAt_perm l l2 hp _).append (entriesAt_perm l l2 hp _)) a)
      · intro a
        rw [mem_far_iff today l hnd g1 hg1 a, mem_far_iff today l2 hnd2 g2 hg2 a, hll]
        refine and_congr (perm_forall_src _ _ (entriesAt_perm l l2 hp _) a.source)
          (and_congr (perm_forall_src _ _
              ((entriesAt_perm l l2 hp _).append (entriesAt_perm l l2 hp _)) a.source)
            (exists_congr fun d => and_congr Iff.rfl (and_congr Iff.rfl
              (and_congr Iff.rfl (perm_exists_fst _ _ (entriesAt_perm l l2 hp d) a)))))

/-- Witness for C7: the scenario input and a rotation of it, at 2024-03-07. -/
theorem c7_permutation_invariance_witness :
    (([obsX, obsY, obsZ].Perm [obsZ, obsX, obsY]) ∧
      (([obsX, obsY, obsZ].map (fun s => s.source)).Nodup)) ∧
    ((best_earnings_guess 738952 [obsX, obsY, obsZ] = none ∧
        best_earnings_guess 738952 [obsZ, obsX, obsY] = none) ∨
      (∃ g g2, best_earnings_guess 738952 [obsX, obsY, obsZ] = some g ∧
        best_earnings_guess 738952 [obsZ, obsX, obsY] = some g2 ∧
        g.last_session = g2.last_session ∧
        (∀ a, a ∈ g.concurrences ↔ a ∈ g2.concurrences) ∧
        (∀ a, a ∈ g.close_disagreements ↔ a ∈ g2.close_disagreements) ∧
        (∀ a, a ∈ g.far_disagreements ↔ a ∈ g2.far_disagreements))) :=
  ⟨⟨by decide, by decide⟩,
    c7_permutation_invariance 738952 [obsX, obsY, obsZ] [obsZ, obsX, obsY]
      (by decide) (by decide)⟩
